import Mathlib

/-!
Verification of the windowed-range engine `Layout1d` (file
`src/packages/uni-virtualizer/src/lib/layouts/Layout1d.ts`) of the
uni-virtualizer repository.

The engine is embedded shallowly: JS `Map`s become association lists with
integer keys, JS numbers become `Int` (the engine works with integer pixel
units; `Math.round` / `Math.floor` are modelled exactly on integers), and the
two `while` loops of `_getItems` become fuel-indexed structural recursions
whose fuel provably dominates the number of iterations.  Fields and methods
owned by the base class `Layout1dBase` (which is not part of the analysed
source) are modelled from the specification and marked as such.
-/

namespace Layout1d

/-- Bounds of one child in the scrolling direction (`ItemBounds` in the
source): position and length. -/
structure ItemBounds where
  pos : Int
  size : Int
deriving Repr, DecidableEq

/-- A JS `Map` from integer keys to `ItemBounds`, modelled as an association
list without duplicate keys (`set` replaces any previous binding). -/
abbrev PMap := List (Int × ItemBounds)

namespace PMap

/-- `Map.get`. -/
def get (m : PMap) (k : Int) : Option ItemBounds :=
  (m.find? (fun e => e.1 = k)).map (·.2)

/-- `Map.set`: replace any previous binding for `k`. -/
def set (m : PMap) (k : Int) (v : ItemBounds) : PMap :=
  (k, v) :: m.filter (fun e => e.1 ≠ k)

/-- `items.forEach((item) => item.pos -= err)` from `_getItems`. -/
def shift (m : PMap) (err : Int) : PMap :=
  m.map (fun e => (e.1, { e.2 with pos := e.2.pos - err }))

end PMap

/-- A raw measured box pushed by the host (`ItemBox` in the source); margins
missing in JS are delivered as `0` (the source applies `|| 0`). -/
structure ItemBox where
  width : Int
  height : Int
  marginLeft : Int
  marginRight : Int
  marginTop : Int
  marginBottom : Int
deriving Repr, DecidableEq

/-- Effective width after margin accounting (source lines 76-77). -/
def effW (b : ItemBox) : Int := b.width + b.marginLeft + b.marginRight

/-- Effective height after margin accounting (source lines 78-79). -/
def effH (b : ItemBox) : Int := b.height + b.marginTop + b.marginBottom

/-- The `_metrics` store: index ↦ (effective width, effective height). -/
abbrev MMap := List (Int × Int × Int)

namespace MMap

def get (m : MMap) (k : Int) : Option (Int × Int) :=
  (m.find? (fun e => e.1 = k)).map (·.2)

def set (m : MMap) (k : Int) (v : Int × Int) : MMap :=
  (k, v) :: m.filter (fun e => e.1 ≠ k)

end MMap

/-- The full engine state: the fields declared in `Layout1d` together with
the base-class (`Layout1dBase`) fields it reads and writes.  The base-class
fields carry the host snapshot described in the spec's §6 (total item count,
viewport extent, scroll position, spacing, overhang, default item size). -/
structure L1State where
  physicalItems : PMap
  newPhysicalItems : PMap
  metrics : MMap
  anchorIdx : Option Int
  anchorPos : Option Int
  stable : Bool
  needsRemeasure : Bool
  nMeasured : Nat
  tMeasured : Int
  estimate : Bool
  -- base-class fields (spec §3/§6)
  first : Int
  last : Int
  physicalMin : Int
  physicalMax : Int
  scrollPosition : Int
  scrollSize : Int
  scrollError : Int
  viewDim1 : Int
  itemDim1 : Int
  itemDim2 : Int
  spacing : Int
  overhang : Int
  totalItems : Int
  vertical : Bool
deriving Repr, DecidableEq

namespace L1State

/-- Modelled from the spec: the base class's `_delta` getter, the per-item
average advance ("averageDelta" in spec §4.4): average item size plus spacing. -/
def delta (s : L1State) : Int := s.itemDim1 + s.spacing

/-- `JS Math.round(t / n)` for integers `t` and positive `n`
(round half toward positive infinity, i.e. `⌊t/n + 1/2⌋`). -/
def jsRound (t n : Int) : Int := (2 * t + n).fdiv (2 * n)

/-- `_getPhysicalItem`: the value in the in-progress window, else the value
in the committed window. -/
def getPhysicalItem (s : L1State) (idx : Int) : Option ItemBounds :=
  (s.newPhysicalItems.get idx).orElse (fun _ => s.physicalItems.get idx)

/-- `_getSize` over explicit maps (used inside `_getItems`, where the
in-progress map is being mutated): `item && item.size`. -/
def getSize2 (items phys : PMap) (idx : Int) : Option Int :=
  (((items.get idx).orElse (fun _ => phys.get idx)).map (·.size))

/-- `_getSize`. -/
def getSize (s : L1State) (idx : Int) : Option Int :=
  (s.getPhysicalItem idx).map (·.size)

/-- `_getPosition`: committed position if present, else the estimate
`idx * delta + spacing`. -/
def getPosition (s : L1State) (idx : Int) : Int :=
  match s.physicalItems.get idx with
  | some it => it.pos
  | none => idx * s.delta + s.spacing

/-- `_calculateAnchor`.  `Math.floor(((lower+upper)/2)/delta)` is the exact
integer floor division `(lower+upper).fdiv (2*delta)` for positive `delta`. -/
def calculateAnchor (s : L1State) (lower upper : Int) : Int :=
  if lower = 0 then 0
  else if upper > s.scrollSize - s.viewDim1 then s.totalItems - 1
  else max 0 (min (s.totalItems - 1) ((lower + upper).fdiv (2 * s.delta)))

/-- The `while (true)` binary search of `_getAnchor`, with fuel.  The source
would throw on a missing candidate and loops forever when a candidate
straddles the whole window; in both situations we return the candidate. -/
def anchorSearch (s : L1State) (lower upper : Int) :
    Nat → Int → Int → Int
  | 0, minIdx, maxIdx => (maxIdx + minIdx + 1).fdiv 2
  | fuel + 1, minIdx, maxIdx =>
    let c := (maxIdx + minIdx + 1).fdiv 2
    match s.physicalItems.get c with
    | none => c
    | some cb =>
      let cMin := cb.pos
      let cMax := cMin + cb.size
      if (cMin ≥ lower ∧ cMin ≤ upper) ∨ (cMax ≥ lower ∧ cMax ≤ upper) then c
      else if cMax < lower then anchorSearch s lower upper fuel (c + 1) maxIdx
      else if cMin > upper then anchorSearch s lower upper fuel minIdx (c - 1)
      else c

/-- `_getAnchor`.  On the error paths where the source would throw reading a
missing first/last item we fall back to `_calculateAnchor`. -/
def getAnchor (s : L1State) (lower upper : Int) : Int :=
  if s.physicalItems = [] then s.calculateAnchor lower upper
  else if s.first < 0 then s.calculateAnchor lower upper
  else if s.last < 0 then s.calculateAnchor lower upper
  else
    match s.getPhysicalItem s.first, s.getPhysicalItem s.last with
    | some fi, some li =>
      let firstMin := fi.pos
      let firstMax := firstMin + fi.size
      let lastMin := li.pos
      let lastMax := lastMin + li.size
      if lastMax < lower then s.calculateAnchor lower upper
      else if firstMin > upper then s.calculateAnchor lower upper
      else if firstMin ≥ lower ∨ firstMax ≥ lower then s.first
      else if lastMax ≤ upper ∨ lastMin ≤ upper then s.last
      else anchorSearch s lower upper ((s.last - s.first).toNat + 2) s.first s.last
    | _, _ => s.calculateAnchor lower upper

end L1State

/-- The running state of either growth loop of `_getItems`: the moving index
(`first` for the backward loop, `last` for the forward one), the physical
extent on that side (`physicalMin` / `physicalMax`), the window being built,
and the stability flag. -/
structure GrowState where
  idx : Int
  pos : Int
  items : PMap
  stable : Bool
deriving Repr, DecidableEq

namespace L1State

/-- One iteration of the backward-growth loop of `_getItems` (source lines
284-290): visit index `first - 1`, fetch or estimate its size (dropping the
stability flag on an estimate), extend `physicalMin` downward and insert the
bounds. -/
def backStep (phys : PMap) (dim1 spacing : Int) (g : GrowState) : GrowState :=
  let f := g.idx - 1
  let szOpt := getSize2 g.items phys f
  let size := szOpt.getD dim1
  let stable' := if szOpt = none then false else g.stable
  let pMin' := g.pos - (size + spacing)
  { idx := f, pos := pMin'
    items := g.items.set f { pos := pMin', size := size }
    stable := stable' }

/-- One iteration of the forward-growth loop of `_getItems` (source lines
297-307) in its continuing form: visit index `last`, insert its bounds at
`physicalMax`, advance `last` and `physicalMax`.  On a `break` the extent
advance is skipped, which is `{ fwdStep … with pos := g.pos }`. -/
def fwdStep (phys : PMap) (dim1 spacing : Int) (g : GrowState) : GrowState :=
  let szOpt := getSize2 g.items phys g.idx
  let size := szOpt.getD dim1
  let stable' := if szOpt = none then false else g.stable
  { idx := g.idx + 1, pos := g.pos + (size + spacing)
    items := g.items.set g.idx { pos := g.pos, size := size }
    stable := stable' }

/-- The backward-growth loop of `_getItems` (source lines 283-294), with fuel
dominating the number of iterations (`first` strictly decreases and the loop
stops at `0`).  A `break` just exits with the current state, so the broken
and the continuing iteration share their successor state. -/
def growBack (phys : PMap) (dim1 spacing lower : Int) (est : Bool) :
    Nat → GrowState → GrowState
  | 0, g => g
  | fuel + 1, g =>
    if g.pos > lower ∧ g.idx > 0 then
      let g' := backStep phys dim1 spacing g
      if g'.stable = false ∧ est = false then g'
      else growBack phys dim1 spacing lower est fuel g'
    else g

/-- The forward-growth loop of `_getItems` (source lines 296-308); `last`
strictly increases and the loop stops at `total`. -/
def growFwd (phys : PMap) (dim1 spacing upper total : Int) (est : Bool) :
    Nat → GrowState → GrowState
  | 0, g => g
  | fuel + 1, g =>
    if g.pos < upper ∧ g.idx < total then
      let g' := fwdStep phys dim1 spacing g
      if g'.stable = false ∧ est = false then { g' with pos := g.pos }
      else growFwd phys dim1 spacing upper total est fuel g'
    else g

/-- `_calculateError` over the in-progress bookkeeping values it reads. -/
def calcError (first last pMin pMax scrollSize total dlt : Int) : Int :=
  if first = 0 then pMin
  else if pMin ≤ 0 then pMin - first * dlt
  else if last = total - 1 then pMax - scrollSize
  else if pMax ≥ scrollSize then (pMax - scrollSize) + (total - 1 - last) * dlt
  else 0

/-- `_calculateError` reading the engine fields, as in the source. -/
def calculateError (s : L1State) : Int :=
  calcError s.first s.last s.physicalMin s.physicalMax s.scrollSize
    s.totalItems s.delta

/-- All values produced by one `_getItems` pass, before they are stored back
into the engine state; `items` is the newly built window. -/
structure CoreOut where
  items : PMap
  first : Int
  last : Int
  pMin : Int
  pMax : Int
  stable : Bool
  scrollPos : Int
  scrollErr : Int
  aPos : Int
deriving Repr, DecidableEq

/-- The anchor size used by `_getItems`: the known size if the anchor is in
either window map, else the default estimate. -/
def anchorSizeOf (s : L1State) (aIdx : Int) : Int :=
  (getSize2 s.newPhysicalItems s.physicalItems aIdx).getD s.itemDim1

/-- The anchor-error correction of `_getItems` (source lines 258-266): the
two `if`s are sequential assignments, so the second one wins when both
conditions hold. -/
def anchorErrOf (s : L1State) (aIdx aPos lower upper : Int) : Int :=
  let anchorSize := s.anchorSizeOf aIdx
  let e1 :=
    if aPos + anchorSize + s.spacing < lower then
      lower - (aPos + anchorSize + s.spacing)
    else 0
  if aPos > upper then upper - aPos else e1

/-- The `lower` bound after the anchor-error adjustment (source line 270). -/
def lowerAdj (s : L1State) (aIdx aPos lower upper : Int) : Int :=
  let anchorErr := s.anchorErrOf aIdx aPos lower upper
  if anchorErr ≠ 0 then lower - anchorErr else lower

/-- The `upper` bound after the anchor-error adjustment (source line 271). -/
def upperAdj (s : L1State) (aIdx aPos lower upper : Int) : Int :=
  let anchorErr := s.anchorErrOf aIdx aPos lower upper
  if anchorErr ≠ 0 then upper - anchorErr else upper

/-- The backward-loop phase of a `_getItems` pass: seed the window with the
anchor bounds at `first = anchorIdx`, `physicalMin = anchorPos` (source
lines 276-281), then run the backward loop. -/
def backRes (s : L1State) (aIdx aPos lower upper : Int) : GrowState :=
  growBack s.physicalItems s.itemDim1 s.spacing (s.lowerAdj aIdx aPos lower upper)
    s.estimate aIdx.toNat
    { idx := aIdx, pos := aPos
      items := s.newPhysicalItems.set aIdx { pos := aPos, size := s.anchorSizeOf aIdx }
      stable := true }

/-- The forward-loop phase of a `_getItems` pass, continuing from the
backward phase with `last = anchorIdx`, `physicalMax = anchorPos`. -/
def fwdRes (s : L1State) (aIdx aPos lower upper : Int) : GrowState :=
  growFwd s.physicalItems s.itemDim1 s.spacing (s.upperAdj aIdx aPos lower upper)
    s.totalItems s.estimate (s.totalItems - aIdx).toNat
    { idx := aIdx, pos := aPos
      items := (backRes s aIdx aPos lower upper).items
      stable := (backRes s aIdx aPos lower upper).stable }

/-- The body of `_getItems` (source lines 240-310) up to but not including
the extent-error correction: anchor-error correction, seeding the anchor,
both growth loops, and the final `last--`. -/
def getItemsRaw (s : L1State) (aIdx aPos : Int) (lower upper : Int) : CoreOut :=
  let anchorErr := s.anchorErrOf aIdx aPos lower upper
  let b := backRes s aIdx aPos lower upper
  let f := fwdRes s aIdx aPos lower upper
  { items := f.items, first := b.idx, last := f.idx - 1,
    pMin := b.pos, pMax := f.pos, stable := f.stable,
    scrollPos := if anchorErr ≠ 0 then s.scrollPosition - anchorErr else s.scrollPosition,
    scrollErr := if anchorErr ≠ 0 then s.scrollError + anchorErr else s.scrollError,
    aPos := aPos }

/-- The body of `_getItems` (source lines 240-321) once the anchor index and
position are determined: the raw pass followed by the extent-error
correction (source lines 313-321). -/
def getItemsCore (s : L1State) (aIdx aPos : Int) (lower upper : Int) : CoreOut :=
  let c := getItemsRaw s aIdx aPos lower upper
  let extentErr := calcError c.first c.last c.pMin c.pMax s.scrollSize
    s.totalItems s.delta
  if extentErr ≠ 0 then
    { c with
      items := c.items.shift extentErr,
      pMin := c.pMin - extentErr, pMax := c.pMax - extentErr,
      scrollPos := c.scrollPos - extentErr, scrollErr := c.scrollErr + extentErr,
      aPos := c.aPos - extentErr }
  else c

/-- The anchor used by a `_getItems` pass: the stored one if both the index
and position are set, otherwise `_getAnchor` / `_getPosition`. -/
def anchorOf (s : L1State) (lower upper : Int) : Int × Int :=
  match s.anchorIdx, s.anchorPos with
  | some i, some p => (i, p)
  | _, _ =>
    let i := s.getAnchor lower upper
    (i, s.getPosition i)

/-- Store a `_getItems` pass back into the engine state, committing the
built window when stable (source lines 323-327). -/
def getItemsFrom (s : L1State) (aIdx aPos lower upper : Int) : L1State :=
  let c := getItemsCore s aIdx aPos lower upper
  { s with
    anchorIdx := some aIdx, anchorPos := some c.aPos,
    first := c.first, last := c.last,
    physicalMin := c.pMin, physicalMax := c.pMax,
    stable := c.stable,
    scrollPosition := c.scrollPos, scrollError := c.scrollErr,
    physicalItems := if c.stable then c.items else s.physicalItems,
    newPhysicalItems := if c.stable then [] else c.items }

/-- `_getItems`. -/
def getItems (s : L1State) (lower upper : Int) : L1State :=
  let a := anchorOf s lower upper
  getItemsFrom s a.1 a.2 lower upper

/-- `_clearItems`: empty the range; the old in-progress map becomes the
committed one and the old committed map is cleared for reuse. -/
def clearItems (s : L1State) : L1State :=
  { s with
    first := -1, last := -1, physicalMin := 0, physicalMax := 0,
    physicalItems := s.newPhysicalItems, newPhysicalItems := [],
    stable := true }

/-- The target interval's upper bound computed by `_getActiveItems`
(source lines 213-215). -/
def upperOf (s : L1State) : Int :=
  min s.scrollSize (s.scrollPosition + s.viewDim1 + s.overhang)

/-- The target interval's lower bound computed by `_getActiveItems`
(source line 216). -/
def lowerOf (s : L1State) : Int :=
  max 0 (s.upperOf - s.viewDim1 - 2 * s.overhang)

/-- `_getActiveItems`. -/
def getActiveItems (s : L1State) : L1State :=
  if s.viewDim1 = 0 ∨ s.totalItems = 0 then s.clearItems
  else s.getItems s.lowerOf s.upperOf

/-- Modelled from the spec: the base class's `_updateScrollSize` sets the
total content size to item count times the average advance (§4.5:
"recompute total content size (monotonic max of item-count x average and
observed physical max)" — the second operand is the subclass's `max`). -/
def updateScrollSizeBase (s : L1State) : L1State :=
  { s with scrollSize := s.totalItems * s.delta }

/-- `_updateScrollSize` of `Layout1d`: the base computation, then reuse a
previously observed physical max when it is larger. -/
def updateScrollSize (s : L1State) : L1State :=
  let s1 := s.updateScrollSizeBase
  { s1 with scrollSize := max s1.physicalMax s1.scrollSize }

/-- Modelled from the spec (§4.5): `_scrollIfNeeded` clamps the viewport
scroll into the valid range when needed. -/
def scrollIfNeeded (s : L1State) : L1State :=
  { s with scrollPosition := max 0 (min s.scrollPosition (s.scrollSize - s.viewDim1)) }

/-- `_resetReflowState`. -/
def resetReflowState (s : L1State) : L1State :=
  { s with anchorIdx := none, anchorPos := none, stable := true }

/-- Modelled from the spec (§6): the per-index positions emitted to the host
for every index in `[first, last]`, each through `_getItemPosition` /
`_getPosition`. -/
def childPositions (s : L1State) : List (Int × Int) :=
  (List.range (s.last - s.first + 1).toNat).map
    (fun k => (s.first + (k : Int), s.getPosition (s.first + (k : Int))))

/-- Everything one `_reflow` pass emits to the host. -/
structure ReflowOut where
  scrollSizeEmitted : Option Int
  rangeFirst : Int
  rangeLast : Int
  rangeStable : Bool
  rangeRemeasure : Bool
  positions : Option (List (Int × Int))
  scrollErrorEmitted : Option Int
deriving Repr, DecidableEq

/-- `_reflow` (source lines 353-378), with the emissions modelled from the
spec as an explicit output record.  `_emitRange` clears `_needsRemeasure`
before the branch at lines 368-370 reads it, exactly as in the source. -/
def reflow (s : L1State) : L1State × ReflowOut :=
  let f0 := s.first
  let l0 := s.last
  let z0 := s.scrollSize
  let s3 := s.updateScrollSize.getActiveItems.scrollIfNeeded
  let sizeEmit := if s3.scrollSize ≠ z0 then some s3.scrollSize else none
  let remeasure := s3.needsRemeasure
  let s4 := { s3 with needsRemeasure := false }
  if s4.first = -1 ∧ s4.last = -1 then
    (s4.resetReflowState,
      { scrollSizeEmitted := sizeEmit, rangeFirst := s4.first, rangeLast := s4.last,
        rangeStable := s4.stable, rangeRemeasure := remeasure,
        positions := none, scrollErrorEmitted := none })
  else if s4.first ≠ f0 ∨ s4.last ≠ l0 ∨ s4.needsRemeasure then
    ({ s4 with scrollError := 0 },
      { scrollSizeEmitted := sizeEmit, rangeFirst := s4.first, rangeLast := s4.last,
        rangeStable := s4.stable, rangeRemeasure := remeasure,
        positions := some s4.childPositions,
        scrollErrorEmitted := some s4.scrollError })
  else
    ({ s4.resetReflowState with scrollError := 0 },
      { scrollSizeEmitted := sizeEmit, rangeFirst := s4.first, rangeLast := s4.last,
        rangeStable := s4.stable, rangeRemeasure := remeasure,
        positions := some s4.childPositions,
        scrollErrorEmitted := some s4.scrollError })

/-- The scroll-direction component of a stored metrics pair
(`mi[this._sizeDim]`). -/
def sizeDimOf (s : L1State) (wh : Int × Int) : Int :=
  if s.vertical then wh.2 else wh.1

/-- One iteration of the `updateItemSizes` forEach (source lines 70-97):
update the stored metrics, and if the item is currently windowed, write its
new size into whichever window map holds it and adjust the running
total/count by the delta. -/
def updateOne (s : L1State) (idx : Int) (box : ItemBox) : L1State :=
  let prevSize := (s.metrics.get idx).map (fun m => s.sizeDimOf m)
  let w := effW box
  let h := effH box
  let metrics' := s.metrics.set idx (w, h)
  let size := if s.vertical then h else w
  match s.getPhysicalItem idx with
  | none => { s with metrics := metrics' }
  | some b =>
    let inNew := (s.newPhysicalItems.get idx).isSome
    let newP :=
      if inNew then s.newPhysicalItems.set idx { b with size := size }
      else s.newPhysicalItems
    let phys :=
      if inNew then s.physicalItems
      else s.physicalItems.set idx { b with size := size }
    let dlt := match prevSize with | none => size | some p => size - p
    let nM := match prevSize with | none => s.nMeasured + 1 | some _ => s.nMeasured
    { s with
      metrics := metrics', newPhysicalItems := newP, physicalItems := phys,
      nMeasured := nM, tMeasured := s.tMeasured + dlt }

/-- `_updateItemSize`: average size = `Math.round(tMeasured / nMeasured)`. -/
def updateItemSize (s : L1State) : L1State :=
  { s with itemDim1 := jsRound s.tMeasured (s.nMeasured : Int) }

/-- `updateItemSizes`.  Returns the new state, whether the "No items
measured yet" warning was reported, and whether a reflow was scheduled. -/
def updateItemSizes (s : L1State) (sizes : List (Int × ItemBox)) :
    L1State × Bool × Bool :=
  let s1 := sizes.foldl (fun st e => updateOne st e.1 e.2) s
  if s1.nMeasured = 0 then (s1, true, false)
  else (s1.updateItemSize, false, true)

/-- A sequence of `updateItemSizes` calls. -/
def updateItemSizesRun (s : L1State) (calls : List (List (Int × ItemBox))) :
    L1State :=
  calls.foldl (fun st c => (updateItemSizes st c).1) s

/-- The scroll-direction component of `_getItemSize`:
`this._getSize(idx) || this._itemDim1` (JS `||` also replaces `0`). -/
def getItemSizeDim1 (s : L1State) (idx : Int) : Int :=
  match s.getSize idx with
  | some sz => if sz = 0 then s.itemDim1 else sz
  | none => s.itemDim1

/-- `_getItemSize`: scroll-direction size and secondary size. -/
def getItemSize (s : L1State) (idx : Int) : Int × Int :=
  (s.getItemSizeDim1 idx, s.itemDim2)

/-- The spec's §4.4 case analysis for the extent-error correction, written
from the spec's words ("averageDelta" is the average advance, and
"totalContentSize" the content total size `scrollSize`), for comparison
with the source's `_calculateError`. -/
def calculateErrorSpec (s : L1State) : Int :=
  if s.first = 0 then s.physicalMin
  else if s.physicalMin ≤ 0 then s.physicalMin - s.first * s.delta
  else if s.last = s.totalItems - 1 then s.physicalMax - s.scrollSize
  else if s.physicalMax ≥ s.scrollSize then
    (s.physicalMax - s.scrollSize) + ((s.totalItems - 1 - s.last) * s.delta)
  else 0

end L1State

/-- The effective size of a measured box along the scroll axis. -/
def sizeOfBox (vertical : Bool) (b : ItemBox) : Int :=
  if vertical then effH b else effW b

/-- An index ↦ size map used to state the average-size specification. -/
abbrev SMap := List (Int × Int)

namespace SMap

def get (m : SMap) (k : Int) : Option Int :=
  (m.find? (fun e => e.1 = k)).map (·.2)

def set (m : SMap) (k : Int) (v : Int) : SMap :=
  (k, v) :: m.filter (fun e => e.1 ≠ k)

/-- Sum of all stored sizes. -/
def sumOf (m : SMap) : Int := (m.map (·.2)).sum

/-- Keys are pairwise distinct. -/
def WF (m : SMap) : Prop := List.Pairwise (fun a b => a.1 ≠ b.1) m

end SMap

/-- The latest effective size per measured index: measurements folded left
to right, later ones replacing earlier ones.  Its keys are the measured set
`S`, its values the latest effective sizes. -/
def latestSizes (vertical : Bool) (ms : List (Int × ItemBox)) : SMap :=
  ms.foldl (fun m e => m.set e.1 (sizeOfBox vertical e.2)) []

/-- Two consecutive window entries are contiguous and non-overlapping:
`bounds[i].position + bounds[i].size + spacing == bounds[i+1].position`. -/
def adjacentAt (sp : Int) (m : PMap) (i : Int) : Prop :=
  ∃ b b', m.get i = some b ∧ m.get (i + 1) = some b'
    ∧ b.pos + b.size + sp = b'.pos

/-- The size-aggregation invariant tying an engine state `st`, reached from
`s` by processing the measurements `p`, to the latest-size map of `p`:
count and total mirror the map, the metrics store holds exactly the latest
sizes, and windowed-item presence is as in `s`. -/
def measuredInv (s st : L1State) (p : List (Int × ItemBox)) : Prop :=
  st.nMeasured = (latestSizes s.vertical p).length
    ∧ st.tMeasured = SMap.sumOf (latestSizes s.vertical p)
    ∧ (∀ i, (st.metrics.get i).map (fun wh => if s.vertical then wh.2 else wh.1)
        = (latestSizes s.vertical p).get i)
    ∧ st.vertical = s.vertical
    ∧ (∀ i, (st.getPhysicalItem i).isSome = (s.getPhysicalItem i).isSome)

/-- Position of the committed entry at `i` (0 if absent). -/
def posAt (s : L1State) (i : Int) : Int :=
  ((s.physicalItems.get i).map (·.pos)).getD 0

/-- Size of the committed entry at `i` (0 if absent). -/
def sizeAt (s : L1State) (i : Int) : Int :=
  ((s.physicalItems.get i).map (·.size)).getD 0

/-- Number of indices in the committed window `[first, last]`. -/
def winCount (s : L1State) : Nat := (s.last - s.first + 1).toNat

/-- A settled, self-consistent engine state: the committed window is
contiguous with non-negative sizes, covers the current target interval
`[lowerOf, upperOf]` with the boundary pinning `_calculateError` enforces,
the content size already accounts for the window's physical extent, the
scroll position is in bounds, and the reflow build state is cleared
(anchor `none`, stable, no remeasure, empty in-progress map).  This is the
state the engine reaches when a pass settles and nothing changes
afterwards. -/
def SettledInv (s : L1State) : Prop :=
  0 < s.totalItems ∧ 0 < s.viewDim1 ∧ 0 ≤ s.spacing ∧ 0 < s.itemDim1
    ∧ 0 ≤ s.overhang
    ∧ 0 ≤ s.scrollPosition ∧ s.scrollPosition ≤ s.scrollSize - s.viewDim1
    ∧ s.anchorIdx = none
    ∧ s.newPhysicalItems = []
    ∧ s.stable = true ∧ s.needsRemeasure = false
    ∧ 0 ≤ s.first ∧ s.first ≤ s.last ∧ s.last < s.totalItems
    ∧ s.scrollSize = max s.physicalMax (s.totalItems * s.delta)
    ∧ (∀ k : Nat, k < winCount s →
        (s.physicalItems.get (s.first + k)).isSome = true
          ∧ 0 ≤ sizeAt s (s.first + k))
    ∧ (∀ k : Nat, k < winCount s → k + 1 < winCount s →
        posAt s (s.first + k) + sizeAt s (s.first + k) + s.spacing
          = posAt s (s.first + k + 1))
    ∧ s.physicalMin = posAt s s.first
    ∧ s.physicalMax = posAt s s.last + sizeAt s s.last + s.spacing
    ∧ (s.first = 0 → posAt s 0 = 0)
    ∧ (0 < s.first → posAt s s.first ≤ s.lowerOf ∧ 0 < s.physicalMin)
    ∧ (∀ k : Nat, k < winCount s → 0 < k → s.lowerOf < posAt s (s.first + k))
    ∧ posAt s s.last < s.upperOf
    ∧ (s.upperOf ≤ s.physicalMax ∨ s.last = s.totalItems - 1)
    ∧ (0 < s.first ∧ s.last = s.totalItems - 1 → s.physicalMax = s.scrollSize)
    ∧ (0 < s.first ∧ s.last < s.totalItems - 1 → s.physicalMax < s.scrollSize)
    ∧ s.lowerOf ≤ posAt s s.last + sizeAt s s.last

instance settledInvDecidable (s : L1State) : Decidable (SettledInv s) := by
  unfold SettledInv
  infer_instance

/-- A freshly constructed engine with an all-zero host snapshot, used as the
base for concrete test states. -/
def baseState : L1State :=
  { physicalItems := [], newPhysicalItems := [], metrics := []
    anchorIdx := none, anchorPos := none
    stable := true, needsRemeasure := false
    nMeasured := 0, tMeasured := 0, estimate := true
    first := -1, last := -1, physicalMin := 0, physicalMax := 0
    scrollPosition := 0, scrollSize := 0, scrollError := 0
    viewDim1 := 0, itemDim1 := 0, itemDim2 := 0
    spacing := 0, overhang := 0, totalItems := 0, vertical := true }

/-- A measured box of the given height with zero width and margins (for a
vertical layout the effective size is the height). -/
def mkBox (hh : Int) : ItemBox :=
  { width := 0, height := hh, marginLeft := 0, marginRight := 0
    marginTop := 0, marginBottom := 0 }

/-- Iterate `_reflow` (the host running several passes back to back). -/
def reflowN : Nat → L1State → L1State
  | 0, s => s
  | k + 1, s => reflowN k (L1State.reflow s).1

/-- One item of default size 10, viewport 5, spacing 100: the host snapshot
used to exhibit a degenerate range. -/
def cfg1 : L1State :=
  { baseState with totalItems := 1, itemDim1 := 10, viewDim1 := 5, spacing := 100 }

/-- Two items of default size 10 under a deep viewport. -/
def cfg3 : L1State :=
  { baseState with totalItems := 2, itemDim1 := 10, viewDim1 := 100 }

/-- `cfg3` after its first reflow pass, measuring both items at height 4, and
the content-size recomputation of the next pass: the state on which that
pass's `_getItems` runs. -/
def cex3Entry : L1State :=
  ((L1State.updateItemSizes (L1State.reflow cfg3).1
    [(0, mkBox 4), (1, mkBox 4)]).1).updateScrollSize

/-- An engine whose committed window holds item 0 while no item has ever been
counted as measured (`nMeasured = 0`). -/
def cex8 : L1State :=
  { baseState with
    totalItems := 1, itemDim1 := 10, viewDim1 := 50
    physicalItems := [(0, { pos := 0, size := 10 })] }

/-- Three items of default size 10, viewport 7, scrolled to 8. -/
def cfg5 : L1State :=
  { baseState with
    totalItems := 3, itemDim1 := 10, viewDim1 := 7
    scrollPosition := 8 }

/-- `cfg5` driven by a host: two passes to settle, item 0 measured at
height 3, one pass to settle, a host scroll back to 8, and one more pass;
the next pass settles. -/
def cex5Pre : L1State :=
  reflowN 1
    { reflowN 1 (L1State.updateItemSizes (reflowN 2 cfg5) [(0, mkBox 3)]).1 with
      scrollPosition := 8 }

/-- The host snapshot of the spec's concrete scenario 1: 1000 items of
default size 50, viewport 500, no spacing or overhang, scroll at 0. -/
def cfgA : L1State :=
  { baseState with totalItems := 1000, itemDim1 := 50, viewDim1 := 500 }

/-- A fresh aggregator whose committed window holds items 0 and 1. -/
def cex6 : L1State :=
  { baseState with
    totalItems := 2, itemDim1 := 10, viewDim1 := 100
    physicalItems := [(0, { pos := 0, size := 10 }), (1, { pos := 10, size := 10 })] }

/-- The measurement sequence used to witness the average-size property:
item 0 measured twice (5 then 7), item 1 once (8). -/
def cex6Calls : List (List (Int × ItemBox)) :=
  [[(0, mkBox 5)], [(1, mkBox 8), (0, mkBox 7)]]

/-- An engine whose committed window holds a zero-size measurement for
item 0. -/
def cex10 : L1State :=
  { baseState with
    totalItems := 1, itemDim1 := 10, itemDim2 := 3
    physicalItems := [(0, { pos := 0, size := 0 })] }

end Layout1d

namespace Layout1d

namespace PMap

theorem find_filter_ne {β : Type} (m : List (Int × β)) (k j : Int) (h : j ≠ k) :
    (m.filter (fun e => e.1 ≠ k)).find? (fun e => e.1 = j)
      = m.find? (fun e => e.1 = j) := by
  simp only [ne_eq, decide_not, List.find?_filter, Bool.not_not]
  rw [show (fun (a : Int × β) =>
        decide ((!decide (a.1 = k)) = true ∧ decide (a.1 = j) = true))
      = (fun (a : Int × β) => decide (a.1 = j)) by
    funext a
    by_cases ha : a.1 = j
    · rw [ha]; simp [h]
    · simp [ha]]

theorem get_set_self (m : PMap) (k : Int) (v : ItemBounds) :
    (m.set k v).get k = some v := by
  simp [get, set, List.find?_cons]

theorem get_set_ne (m : PMap) (k j : Int) (v : ItemBounds) (h : j ≠ k) :
    (m.set k v).get j = m.get j := by
  unfold get set
  rw [List.find?_cons_of_neg _ (by simp [Ne.symm h]), find_filter_ne m k j h]

theorem get_shift (m : PMap) (err : Int) (k : Int) :
    (m.shift err).get k
      = (m.get k).map (fun b => { b with pos := b.pos - err }) := by
  induction m with
  | nil => rfl
  | cons e t ih =>
    unfold shift get at ih ⊢
    simp only [List.map_cons]
    by_cases he : e.1 = k
    · simp [List.find?_cons, he]
    · rw [List.find?_cons_of_neg _ (by simp [he]),
        List.find?_cons_of_neg _ (by simp [he])]
      exact ih

end PMap

namespace MMap

theorem metrics_get_set_self (m : MMap) (k : Int) (v : Int × Int) :
    (m.set k v).get k = some v := by
  simp [get, set, List.find?_cons]

theorem metrics_get_set_ne (m : MMap) (k j : Int) (v : Int × Int) (h : j ≠ k) :
    (m.set k v).get j = m.get j := by
  unfold get set
  rw [List.find?_cons_of_neg _ (by simp [Ne.symm h]),
    PMap.find_filter_ne m k j h]

end MMap

open L1State

namespace SMap

theorem sizes_get_set_self (m : SMap) (k : Int) (v : Int) :
    (m.set k v).get k = some v := by
  simp [get, set, List.find?_cons]

theorem sizes_get_set_ne (m : SMap) (k j : Int) (v : Int) (h : j ≠ k) :
    (m.set k v).get j = m.get j := by
  unfold get set
  rw [List.find?_cons_of_neg _ (by simp [Ne.symm h]),
    PMap.find_filter_ne m k j h]

theorem get_cons (e : Int × Int) (t : SMap) (k : Int) :
    SMap.get (e :: t) k = if e.1 = k then some e.2 else t.get k := by
  unfold get
  rw [List.find?_cons]
  by_cases h : e.1 = k
  · simp [h]
  · simp [h]

theorem filter_of_get_none (m : SMap) (k : Int) (h : m.get k = none) :
    m.filter (fun e => e.1 ≠ k) = m := by
  have hf : m.find? (fun e => e.1 = k) = none := by
    unfold get at h
    exact Option.map_eq_none'.mp h
  rw [List.filter_eq_self]
  intro a ha
  have := List.find?_eq_none.mp hf a ha
  simpa using this

theorem length_set_none (m : SMap) (k v : Int) (h : m.get k = none) :
    (m.set k v).length = m.length + 1 := by
  unfold set
  rw [filter_of_get_none m k h]
  rfl

theorem sumOf_set_none (m : SMap) (k v : Int) (h : m.get k = none) :
    (m.set k v).sumOf = m.sumOf + v := by
  unfold set sumOf
  rw [filter_of_get_none m k h]
  simp [List.map_cons, List.sum_cons]
  ring

theorem filter_facts_of_get_some (m : SMap) (k w : Int) (hWF : WF m)
    (h : m.get k = some w) :
    (m.filter (fun e => e.1 ≠ k)).length + 1 = m.length
      ∧ sumOf (m.filter (fun e => e.1 ≠ k)) = sumOf m - w := by
  induction m with
  | nil => simp [get] at h
  | cons e t ih =>
    have hWF' := List.pairwise_cons.mp hWF
    rw [get_cons] at h
    by_cases he : e.1 = k
    · rw [if_pos he] at h
      have hw : w = e.2 := by injection h; omega
      have hfind : t.find? (fun e => e.1 = k) = none := by
        apply List.find?_eq_none.mpr
        intro x hx
        simp only [decide_eq_true_eq]
        intro hxk
        exact (hWF'.1 x hx) (he.trans hxk.symm)
      have hnone : SMap.get t k = none := by
        unfold get
        rw [hfind]
        rfl
      have hfilter : t.filter (fun e => e.1 ≠ k) = t := filter_of_get_none t k hnone
      rw [List.filter_cons, if_neg (by simp [he]), hfilter]
      constructor
      · rfl
      · unfold sumOf
        simp [List.map_cons, List.sum_cons, hw]
    · rw [if_neg he] at h
      obtain ⟨ihl, ihs⟩ := ih hWF'.2 h
      rw [List.filter_cons, if_pos (by simp [he])]
      constructor
      · simp only [List.length_cons]
        omega
      · unfold sumOf at ihs ⊢
        simp only [List.map_cons, List.sum_cons]
        omega

theorem length_set_some (m : SMap) (k v w : Int) (hWF : WF m)
    (h : m.get k = some w) : (m.set k v).length = m.length := by
  unfold set
  have := (filter_facts_of_get_some m k w hWF h).1
  simp only [List.length_cons]
  omega

theorem sumOf_set_some (m : SMap) (k v w : Int) (hWF : WF m)
    (h : m.get k = some w) : (m.set k v).sumOf = m.sumOf - w + v := by
  have := (filter_facts_of_get_some m k w hWF h).2
  unfold set sumOf at this ⊢
  simp only [List.map_cons, List.sum_cons]
  omega

theorem WF_set (m : SMap) (k v : Int) (h : WF m) : WF (m.set k v) := by
  unfold WF set
  rw [List.pairwise_cons]
  constructor
  · intro b hb
    have hmem := List.mem_filter.mp hb
    have : b.1 ≠ k := by simpa using hmem.2
    exact fun hkb => this (hkb.symm)
  · exact List.Pairwise.filter _ h

end SMap

theorem latestSizes_WF (v : Bool) (ms : List (Int × ItemBox)) :
    SMap.WF (latestSizes v ms) := by
  have aux : ∀ (l : List (Int × ItemBox)) (m : SMap), SMap.WF m →
      SMap.WF (l.foldl (fun m e => m.set e.1 (sizeOfBox v e.2)) m) := by
    intro l
    induction l with
    | nil => exact fun m h => h
    | cons e t ih => exact fun m h => ih _ (SMap.WF_set m e.1 _ h)
  exact aux ms [] List.Pairwise.nil

theorem latestSizes_append (v : Bool) (p : List (Int × ItemBox))
    (idx : Int) (b : ItemBox) :
    latestSizes v (p ++ [(idx, b)])
      = (latestSizes v p).set idx (sizeOfBox v b) := by
  unfold latestSizes
  rw [List.foldl_append]
  rfl

theorem latestSizes_ne_nil (v : Bool) (ms : List (Int × ItemBox))
    (h : ms ≠ []) : latestSizes v ms ≠ [] := by
  have aux : ∀ (l : List (Int × ItemBox)) (m : SMap), m ≠ [] ∨ l ≠ [] →
      l.foldl (fun m e => m.set e.1 (sizeOfBox v e.2)) m ≠ [] := by
    intro l
    induction l with
    | nil =>
      intro m hm
      exact hm.resolve_right (fun hc => hc rfl)
    | cons e t ih =>
      intro m _
      exact ih _ (Or.inl (List.cons_ne_nil _ _))
  exact aux ms [] (Or.inr h)

theorem backStep_idx (phys : PMap) (d sp : Int) (g : GrowState) :
    (backStep phys d sp g).idx = g.idx - 1 := rfl

theorem backStep_pos (phys : PMap) (d sp : Int) (g : GrowState) :
    (backStep phys d sp g).pos
      = g.pos - ((getSize2 g.items phys (g.idx - 1)).getD d + sp) := rfl

theorem backStep_stable (phys : PMap) (d sp : Int) (g : GrowState) :
    (backStep phys d sp g).stable
      = (if getSize2 g.items phys (g.idx - 1) = none then false else g.stable) := rfl

theorem backStep_get_self (phys : PMap) (d sp : Int) (g : GrowState) :
    (backStep phys d sp g).items.get (g.idx - 1)
      = some { pos := (backStep phys d sp g).pos
               size := (getSize2 g.items phys (g.idx - 1)).getD d } :=
  PMap.get_set_self _ _ _

theorem backStep_get_ne (phys : PMap) (d sp : Int) (g : GrowState) (j : Int)
    (h : j ≠ g.idx - 1) :
    (backStep phys d sp g).items.get j = g.items.get j :=
  PMap.get_set_ne _ _ _ _ h

theorem fwdStep_idx (phys : PMap) (d sp : Int) (g : GrowState) :
    (fwdStep phys d sp g).idx = g.idx + 1 := rfl

theorem fwdStep_pos (phys : PMap) (d sp : Int) (g : GrowState) :
    (fwdStep phys d sp g).pos
      = g.pos + ((getSize2 g.items phys g.idx).getD d + sp) := rfl

theorem fwdStep_stable (phys : PMap) (d sp : Int) (g : GrowState) :
    (fwdStep phys d sp g).stable
      = (if getSize2 g.items phys g.idx = none then false else g.stable) := rfl

theorem fwdStep_get_self (phys : PMap) (d sp : Int) (g : GrowState) :
    (fwdStep phys d sp g).items.get g.idx
      = some { pos := g.pos, size := (getSize2 g.items phys g.idx).getD d } :=
  PMap.get_set_self _ _ _

theorem fwdStep_get_ne (phys : PMap) (d sp : Int) (g : GrowState) (j : Int)
    (h : j ≠ g.idx) :
    (fwdStep phys d sp g).items.get j = g.items.get j :=
  PMap.get_set_ne _ _ _ _ h

/-- Invariant rule for the backward loop: a predicate preserved by
`backStep` under the loop guard holds at exit. -/
theorem growBack_inv (phys : PMap) (d sp lo : Int) (est : Bool)
    (P : GrowState → Prop)
    (hstep : ∀ g, g.pos > lo → 0 < g.idx → P g → P (backStep phys d sp g)) :
    ∀ (fuel : Nat) (g : GrowState), P g → P (growBack phys d sp lo est fuel g) := by
  intro fuel
  induction fuel with
  | zero => exact fun g h => h
  | succ n ih =>
    intro g h
    rw [growBack]
    by_cases hg : g.pos > lo ∧ g.idx > 0
    · rw [if_pos hg]
      have h' := hstep g hg.1 hg.2 h
      by_cases hb : (backStep phys d sp g).stable = false ∧ est = false
      · rw [if_pos hb]; exact h'
      · rw [if_neg hb]; exact ih _ h'
    · rw [if_neg hg]; exact h

/-- Invariant rule for the forward loop: `P` is preserved by continuing
steps, and a weaker `Q` (implied by `P`) is recovered from a breaking step,
so `Q` holds at exit. -/
theorem growFwd_inv (phys : PMap) (d sp up total : Int) (est : Bool)
    (P Q : GrowState → Prop)
    (hstep : ∀ g, g.pos < up → g.idx < total → P g → P (fwdStep phys d sp g))
    (hbreak : ∀ g, g.pos < up → g.idx < total → P g →
      Q { fwdStep phys d sp g with pos := g.pos })
    (hpq : ∀ g, P g → Q g) :
    ∀ (fuel : Nat) (g : GrowState), P g →
      Q (growFwd phys d sp up total est fuel g) := by
  intro fuel
  induction fuel with
  | zero => exact fun g h => hpq g h
  | succ n ih =>
    intro g h
    rw [growFwd]
    by_cases hg : g.pos < up ∧ g.idx < total
    · rw [if_pos hg]
      by_cases hb : (fwdStep phys d sp g).stable = false ∧ est = false
      · rw [if_pos hb]; exact hbreak g hg.1 hg.2 h
      · rw [if_neg hb]; exact ih _ (hstep g hg.1 hg.2 h)
    · rw [if_neg hg]; exact hpq g h

/-- One unfolding of the forward loop when the guard holds and there is
fuel: the loop makes at least one step, so `last` strictly increases. -/
theorem growFwd_progress (phys : PMap) (d sp up total : Int) (est : Bool)
    (fuel : Nat) (g : GrowState) (h1 : g.pos < up) (h2 : g.idx < total) :
    g.idx + 1 ≤ (growFwd phys d sp up total est (fuel + 1) g).idx := by
  rw [growFwd, if_pos ⟨h1, h2⟩]
  by_cases hb : (fwdStep phys d sp g).stable = false ∧ est = false
  · rw [if_pos hb]
    show g.idx + 1 ≤ (fwdStep phys d sp g).idx
    rw [fwdStep_idx]
  · rw [if_neg hb]
    have := growFwd_inv phys d sp up total est
      (fun g' => g.idx + 1 ≤ g'.idx) (fun g' => g.idx + 1 ≤ g'.idx)
      (fun g' _ _ hp => by
        show g.idx + 1 ≤ (fwdStep phys d sp g').idx
        rw [fwdStep_idx]; omega)
      (fun g' _ _ hp => by
        show g.idx + 1 ≤ (fwdStep phys d sp g').idx
        rw [fwdStep_idx]; omega)
      (fun g' hp => hp) fuel (fwdStep phys d sp g)
      (by show g.idx + 1 ≤ (fwdStep phys d sp g).idx; rw [fwdStep_idx])
    exact this

theorem getItemsRaw_first (s : L1State) (aIdx aPos lower upper : Int) :
    (getItemsRaw s aIdx aPos lower upper).first
      = (backRes s aIdx aPos lower upper).idx := rfl

theorem getItemsRaw_last (s : L1State) (aIdx aPos lower upper : Int) :
    (getItemsRaw s aIdx aPos lower upper).last
      = (fwdRes s aIdx aPos lower upper).idx - 1 := rfl

theorem getItemsRaw_pMin (s : L1State) (aIdx aPos lower upper : Int) :
    (getItemsRaw s aIdx aPos lower upper).pMin
      = (backRes s aIdx aPos lower upper).pos := rfl

theorem getItemsRaw_pMax (s : L1State) (aIdx aPos lower upper : Int) :
    (getItemsRaw s aIdx aPos lower upper).pMax
      = (fwdRes s aIdx aPos lower upper).pos := rfl

theorem getItemsRaw_stable (s : L1State) (aIdx aPos lower upper : Int) :
    (getItemsRaw s aIdx aPos lower upper).stable
      = (fwdRes s aIdx aPos lower upper).stable := rfl

theorem getItemsRaw_items (s : L1State) (aIdx aPos lower upper : Int) :
    (getItemsRaw s aIdx aPos lower upper).items
      = (fwdRes s aIdx aPos lower upper).items := rfl

theorem getItemsCore_first (s : L1State) (aIdx aPos lower upper : Int) :
    (getItemsCore s aIdx aPos lower upper).first
      = (getItemsRaw s aIdx aPos lower upper).first := by
  unfold L1State.getItemsCore
  dsimp only
  split <;> rfl

theorem getItemsCore_last (s : L1State) (aIdx aPos lower upper : Int) :
    (getItemsCore s aIdx aPos lower upper).last
      = (getItemsRaw s aIdx aPos lower upper).last := by
  unfold L1State.getItemsCore
  dsimp only
  split <;> rfl

theorem getItemsCore_stable (s : L1State) (aIdx aPos lower upper : Int) :
    (getItemsCore s aIdx aPos lower upper).stable
      = (getItemsRaw s aIdx aPos lower upper).stable := by
  unfold L1State.getItemsCore
  dsimp only
  split <;> rfl

theorem getItemsFrom_first (s : L1State) (aIdx aPos lower upper : Int) :
    (getItemsFrom s aIdx aPos lower upper).first
      = (getItemsCore s aIdx aPos lower upper).first := rfl

theorem getItemsFrom_last (s : L1State) (aIdx aPos lower upper : Int) :
    (getItemsFrom s aIdx aPos lower upper).last
      = (getItemsCore s aIdx aPos lower upper).last := rfl

theorem getItemsFrom_stable (s : L1State) (aIdx aPos lower upper : Int) :
    (getItemsFrom s aIdx aPos lower upper).stable
      = (getItemsCore s aIdx aPos lower upper).stable := rfl

theorem backRes_idx_bounds (s : L1State) (aIdx aPos lower upper : Int)
    (h : 0 ≤ aIdx) :
    0 ≤ (backRes s aIdx aPos lower upper).idx
      ∧ (backRes s aIdx aPos lower upper).idx ≤ aIdx := by
  unfold L1State.backRes
  exact growBack_inv _ _ _ _ _ (fun g => 0 ≤ g.idx ∧ g.idx ≤ aIdx)
    (fun g hpos hidx hp => by
      obtain ⟨h1, h2⟩ := hp
      exact ⟨by rw [backStep_idx]; omega, by rw [backStep_idx]; omega⟩)
    _ _ ⟨h, le_refl _⟩

theorem fwdRes_idx_bounds (s : L1State) (aIdx aPos lower upper : Int)
    (h : aIdx ≤ s.totalItems) :
    aIdx ≤ (fwdRes s aIdx aPos lower upper).idx
      ∧ (fwdRes s aIdx aPos lower upper).idx ≤ s.totalItems := by
  unfold L1State.fwdRes
  refine growFwd_inv _ _ _ _ _ _
    (fun g => aIdx ≤ g.idx ∧ g.idx ≤ s.totalItems)
    (fun g => aIdx ≤ g.idx ∧ g.idx ≤ s.totalItems)
    ?_ ?_ (fun g hp => hp) _ _ ⟨le_refl _, h⟩
  · intro g hpos hidx hp
    obtain ⟨h1, h2⟩ := hp
    constructor
    · show aIdx ≤ (fwdStep s.physicalItems s.itemDim1 s.spacing g).idx
      rw [fwdStep_idx]; omega
    · show (fwdStep s.physicalItems s.itemDim1 s.spacing g).idx ≤ s.totalItems
      rw [fwdStep_idx]; omega
  · intro g hpos hidx hp
    obtain ⟨h1, h2⟩ := hp
    constructor
    · show aIdx ≤ (fwdStep s.physicalItems s.itemDim1 s.spacing g).idx
      rw [fwdStep_idx]; omega
    · show (fwdStep s.physicalItems s.itemDim1 s.spacing g).idx ≤ s.totalItems
      rw [fwdStep_idx]; omega

theorem fwdRes_progress (s : L1State) (aIdx aPos lower upper : Int)
    (ha : aIdx < s.totalItems)
    (hp : aPos < s.upperAdj aIdx aPos lower upper) :
    aIdx + 1 ≤ (fwdRes s aIdx aPos lower upper).idx := by
  unfold L1State.fwdRes
  obtain ⟨n, hn⟩ : ∃ n, (s.totalItems - aIdx).toNat = n + 1 :=
    ⟨(s.totalItems - aIdx).toNat - 1, by omega⟩
  rw [hn]
  exact growFwd_progress _ _ _ _ _ _ n _ hp ha

theorem getSize2_of_get_some (items phys : PMap) (idx : Int) (b : ItemBounds)
    (h : items.get idx = some b) : getSize2 items phys idx = some b.size := by
  unfold L1State.getSize2
  rw [h]
  rfl

/-- Adjacency survives the uniform shift of the extent-error correction. -/
theorem adjacentAt_shift (sp err : Int) (m : PMap) (i : Int)
    (h : adjacentAt sp m i) : adjacentAt sp (m.shift err) i := by
  obtain ⟨b, b', hb, hb', hrel⟩ := h
  refine ⟨{ b with pos := b.pos - err }, { b' with pos := b'.pos - err }, ?_, ?_, ?_⟩
  · rw [PMap.get_shift, hb]; rfl
  · rw [PMap.get_shift, hb']; rfl
  · dsimp only; omega

/-- What the backward loop guarantees: the final `first` is at most the
anchor, the entry at `first` sits at `physicalMin`, all entries strictly
between `first` and the anchor are adjacent, and nothing at or above the
anchor is touched. -/
theorem backRes_window (s : L1State) (aIdx aPos lower upper : Int) :
    (backRes s aIdx aPos lower upper).idx ≤ aIdx
      ∧ (∃ sz, (backRes s aIdx aPos lower upper).items.get
          (backRes s aIdx aPos lower upper).idx
          = some { pos := (backRes s aIdx aPos lower upper).pos, size := sz })
      ∧ (∀ i, (backRes s aIdx aPos lower upper).idx ≤ i → i < aIdx →
          adjacentAt s.spacing (backRes s aIdx aPos lower upper).items i)
      ∧ (∀ j, aIdx ≤ j → (backRes s aIdx aPos lower upper).items.get j
          = (s.newPhysicalItems.set aIdx
              { pos := aPos, size := s.anchorSizeOf aIdx }).get j) := by
  unfold L1State.backRes
  refine growBack_inv _ _ _ _ _
    (fun g => g.idx ≤ aIdx
      ∧ (∃ sz, g.items.get g.idx = some { pos := g.pos, size := sz })
      ∧ (∀ i, g.idx ≤ i → i < aIdx → adjacentAt s.spacing g.items i)
      ∧ (∀ j, aIdx ≤ j → g.items.get j
          = (s.newPhysicalItems.set aIdx
              { pos := aPos, size := s.anchorSizeOf aIdx }).get j))
    ?_ _ _ ?_
  · intro g hpos hidx hp
    obtain ⟨hle, ⟨sz, hself⟩, hadj, hpres⟩ := hp
    refine ⟨?_, ?_, ?_, ?_⟩
    · show (backStep _ _ _ g).idx ≤ aIdx
      rw [backStep_idx]; omega
    · refine ⟨(getSize2 g.items s.physicalItems (g.idx - 1)).getD s.itemDim1, ?_⟩
      show (backStep _ _ _ g).items.get (backStep _ _ _ g).idx = _
      rw [backStep_idx]
      exact backStep_get_self _ _ _ _
    · intro i hi1 hi2
      rw [backStep_idx] at hi1
      by_cases hieq : i = g.idx - 1
      · subst hieq
        refine ⟨{ pos := (backStep s.physicalItems s.itemDim1 s.spacing g).pos
                  size := (getSize2 g.items s.physicalItems (g.idx - 1)).getD s.itemDim1 },
            { pos := g.pos, size := sz }, backStep_get_self _ _ _ _, ?_, ?_⟩
        · have h1 : g.idx - 1 + 1 = g.idx := by omega
          rw [h1, backStep_get_ne _ _ _ _ _ (by omega)]
          exact hself
        · rw [backStep_pos]
          dsimp only
          omega
      · obtain ⟨b, b', hb, hb', hrel⟩ := hadj i (by omega) hi2
        exact ⟨b, b', by rw [backStep_get_ne _ _ _ _ _ (by omega)]; exact hb,
          by rw [backStep_get_ne _ _ _ _ _ (by omega)]; exact hb', hrel⟩
    · intro j hj
      rw [backStep_get_ne _ _ _ _ _ (by omega)]
      exact hpres j hj
  · refine ⟨le_refl _, ⟨s.anchorSizeOf aIdx, PMap.get_set_self _ _ _⟩, ?_, fun j _ => rfl⟩
    intro i h1 h2
    exact absurd h2 (not_lt.mpr h1)

theorem fwdStep_Q (phys : PMap) (d sp : Int) (aIdx aPos : Int) (M : PMap)
    (sz0 : Int) (hs0 : M.get aIdx = some { pos := aPos, size := sz0 })
    (g : GrowState)
    (h1 : aIdx ≤ g.idx)
    (h2 : ∀ j, j < aIdx → g.items.get j = M.get j)
    (h3 : g.items.get aIdx = M.get aIdx)
    (h4 : g.idx = aIdx → g.pos = aPos ∧ g.items = M)
    (h5 : ∀ i, aIdx ≤ i → i + 1 < g.idx → adjacentAt sp g.items i)
    (h6 : aIdx < g.idx → ∃ b, g.items.get (g.idx - 1) = some b
        ∧ b.pos + b.size + sp = g.pos) :
    aIdx ≤ (fwdStep phys d sp g).idx
      ∧ (∀ j, j < aIdx → (fwdStep phys d sp g).items.get j = M.get j)
      ∧ (fwdStep phys d sp g).items.get aIdx = M.get aIdx
      ∧ (∀ i, aIdx ≤ i → i + 1 < (fwdStep phys d sp g).idx →
          adjacentAt sp (fwdStep phys d sp g).items i) := by
  refine ⟨?_, ?_, ?_, ?_⟩
  · rw [fwdStep_idx]; omega
  · intro j hj
    rw [fwdStep_get_ne _ _ _ _ _ (by omega)]
    exact h2 j hj
  · by_cases he : g.idx = aIdx
    · obtain ⟨hp4, hi4⟩ := h4 he
      have hgsz : getSize2 g.items phys g.idx = some sz0 := by
        rw [he, hi4]
        exact getSize2_of_get_some _ _ _ _ hs0
      have hv : (fwdStep phys d sp g).items.get aIdx
          = some { pos := g.pos, size := (getSize2 g.items phys g.idx).getD d } := by
        conv_lhs => rw [show aIdx = g.idx from he.symm]
        exact fwdStep_get_self _ _ _ _
      rw [hv, hgsz, hp4, hs0]
      rfl
    · rw [fwdStep_get_ne _ _ _ _ _ (by omega)]
      exact h3
  · intro i hi1 hi2
    rw [fwdStep_idx] at hi2
    by_cases hieq : i + 1 = g.idx
    · obtain ⟨b, hb, hrel⟩ := h6 (by omega)
      refine ⟨b, { pos := g.pos
                   size := (getSize2 g.items phys g.idx).getD d }, ?_, ?_, ?_⟩
      · rw [fwdStep_get_ne _ _ _ _ _ (by omega)]
        have heq : i = g.idx - 1 := by omega
        rw [heq]
        exact hb
      · rw [hieq]
        exact fwdStep_get_self _ _ _ _
      · exact hrel
    · obtain ⟨b, b', hb, hb', hrel⟩ := h5 i hi1 (by omega)
      exact ⟨b, b', by rw [fwdStep_get_ne _ _ _ _ _ (by omega)]; exact hb,
        by rw [fwdStep_get_ne _ _ _ _ _ (by omega)]; exact hb', hrel⟩

/-- What the forward loop guarantees: entries strictly below the anchor are
untouched, the anchor entry keeps its seeded value, and all entries from the
anchor up to the final `last` are adjacent. -/
theorem fwdRes_window (s : L1State) (aIdx aPos lower upper : Int) :
    aIdx ≤ (fwdRes s aIdx aPos lower upper).idx
      ∧ (∀ j, j < aIdx → (fwdRes s aIdx aPos lower upper).items.get j
          = (backRes s aIdx aPos lower upper).items.get j)
      ∧ (fwdRes s aIdx aPos lower upper).items.get aIdx
          = (backRes s aIdx aPos lower upper).items.get aIdx
      ∧ (∀ i, aIdx ≤ i → i + 1 < (fwdRes s aIdx aPos lower upper).idx →
          adjacentAt s.spacing (fwdRes s aIdx aPos lower upper).items i) := by
  have hseed : (backRes s aIdx aPos lower upper).items.get aIdx
      = some { pos := aPos, size := s.anchorSizeOf aIdx } := by
    obtain ⟨-, -, -, hpres⟩ := backRes_window s aIdx aPos lower upper
    rw [hpres aIdx (le_refl _), PMap.get_set_self]
  unfold L1State.fwdRes
  refine growFwd_inv _ _ _ _ _ _
    (fun g => (aIdx ≤ g.idx
        ∧ (∀ j, j < aIdx → g.items.get j
            = (backRes s aIdx aPos lower upper).items.get j)
        ∧ g.items.get aIdx = (backRes s aIdx aPos lower upper).items.get aIdx
        ∧ (∀ i, aIdx ≤ i → i + 1 < g.idx → adjacentAt s.spacing g.items i))
      ∧ (g.idx = aIdx → g.pos = aPos
          ∧ g.items = (backRes s aIdx aPos lower upper).items)
      ∧ (aIdx < g.idx → ∃ b, g.items.get (g.idx - 1) = some b
          ∧ b.pos + b.size + s.spacing = g.pos))
    (fun g => aIdx ≤ g.idx
        ∧ (∀ j, j < aIdx → g.items.get j
            = (backRes s aIdx aPos lower upper).items.get j)
        ∧ g.items.get aIdx = (backRes s aIdx aPos lower upper).items.get aIdx
        ∧ (∀ i, aIdx ≤ i → i + 1 < g.idx → adjacentAt s.spacing g.items i))
    ?_ ?_ (fun g hp => hp.1) _ _ ?_
  · intro g hpos hidx hp
    obtain ⟨⟨h1, h2, h3, h5⟩, h4, h6⟩ := hp
    refine ⟨fwdStep_Q s.physicalItems s.itemDim1 s.spacing aIdx aPos _ _
      hseed g h1 h2 h3 h4 h5 h6, ?_, ?_⟩
    · intro habs
      rw [fwdStep_idx] at habs
      omega
    · intro _
      refine ⟨{ pos := g.pos
                size := (getSize2 g.items s.physicalItems g.idx).getD s.itemDim1 },
        ?_, ?_⟩
      · have heq : (fwdStep s.physicalItems s.itemDim1 s.spacing g).idx - 1
            = g.idx := by rw [fwdStep_idx]; omega
        rw [heq]
        exact fwdStep_get_self _ _ _ _
      · rw [fwdStep_pos]
        dsimp only
        omega
  · intro g hpos hidx hp
    obtain ⟨⟨h1, h2, h3, h5⟩, h4, h6⟩ := hp
    exact fwdStep_Q s.physicalItems s.itemDim1 s.spacing aIdx aPos _ _
      hseed g h1 h2 h3 h4 h5 h6
  · refine ⟨⟨le_refl _, fun j _ => rfl, rfl, ?_⟩, fun _ => ⟨rfl, rfl⟩, ?_⟩
    · intro i h1 h2
      have h2' : i + 1 < aIdx := h2
      omega
    · intro habs
      have habs' : aIdx < aIdx := habs
      exact absurd habs' (lt_irrefl _)

theorem getItemsRaw_adjacent (s : L1State) (aIdx aPos lower upper : Int)
    (i : Int)
    (h1 : (getItemsRaw s aIdx aPos lower upper).first ≤ i)
    (h2 : i + 1 ≤ (getItemsRaw s aIdx aPos lower upper).last) :
    adjacentAt s.spacing (getItemsRaw s aIdx aPos lower upper).items i := by
  rw [getItemsRaw_first] at h1
  rw [getItemsRaw_last] at h2
  rw [getItemsRaw_items]
  obtain ⟨hble, ⟨szb, hbself⟩, hbadj, hbpres⟩ := backRes_window s aIdx aPos lower upper
  obtain ⟨hfge, hfbelow, hfat, hfadj⟩ := fwdRes_window s aIdx aPos lower upper
  by_cases hcase : i + 1 ≤ aIdx
  · obtain ⟨b, b', hb, hb', hrel⟩ := hbadj i h1 (by omega)
    refine ⟨b, b', ?_, ?_, hrel⟩
    · rw [hfbelow i (by omega)]
      exact hb
    · by_cases h : i + 1 = aIdx
      · rw [h] at hb' ⊢
        rw [hfat]
        exact hb'
      · rw [hfbelow (i + 1) (by omega)]
        exact hb'
  · exact hfadj i (by omega) (by omega)

theorem getItemsCore_items_cases (s : L1State) (aIdx aPos lower upper : Int) :
    (getItemsCore s aIdx aPos lower upper).items
        = (getItemsRaw s aIdx aPos lower upper).items
      ∨ ∃ err, (getItemsCore s aIdx aPos lower upper).items
        = (getItemsRaw s aIdx aPos lower upper).items.shift err := by
  unfold L1State.getItemsCore
  dsimp only
  split
  · exact Or.inr ⟨_, rfl⟩
  · exact Or.inl rfl

/-- C7: in every committed (stable) window, the bounds of consecutive
indices `i` and `i + 1` inside `[first, last]` satisfy
`bounds[i].pos + bounds[i].size + spacing = bounds[i+1].pos`. -/
theorem c7_committed_window_contiguous (s : L1State) (lower upper : Int)
    (hst : (getItems s lower upper).stable = true) (i : Int)
    (h1 : (getItems s lower upper).first ≤ i)
    (h2 : i < (getItems s lower upper).last) :
    adjacentAt s.spacing ((getItems s lower upper).physicalItems) i := by
  have hstable : (getItemsCore s (anchorOf s lower upper).1
      (anchorOf s lower upper).2 lower upper).stable = true := hst
  have hphys : (getItems s lower upper).physicalItems
      = (getItemsCore s (anchorOf s lower upper).1
          (anchorOf s lower upper).2 lower upper).items := by
    show (if (getItemsCore s (anchorOf s lower upper).1
        (anchorOf s lower upper).2 lower upper).stable = true then
      (getItemsCore s (anchorOf s lower upper).1
        (anchorOf s lower upper).2 lower upper).items else s.physicalItems) = _
    rw [if_pos hstable]
  have hfirst : (getItems s lower upper).first
      = (getItemsRaw s (anchorOf s lower upper).1
          (anchorOf s lower upper).2 lower upper).first := by
    show (getItemsFrom s (anchorOf s lower upper).1
      (anchorOf s lower upper).2 lower upper).first = _
    rw [getItemsFrom_first, getItemsCore_first]
  have hlast : (getItems s lower upper).last
      = (getItemsRaw s (anchorOf s lower upper).1
          (anchorOf s lower upper).2 lower upper).last := by
    show (getItemsFrom s (anchorOf s lower upper).1
      (anchorOf s lower upper).2 lower upper).last = _
    rw [getItemsFrom_last, getItemsCore_last]
  rw [hfirst] at h1
  rw [hlast] at h2
  have hadj := getItemsRaw_adjacent s (anchorOf s lower upper).1
    (anchorOf s lower upper).2 lower upper i h1 (by omega)
  rw [hphys]
  rcases getItemsCore_items_cases s (anchorOf s lower upper).1
      (anchorOf s lower upper).2 lower upper with hsame | ⟨err, hshift⟩
  · rw [hsame]; exact hadj
  · rw [hshift]; exact adjacentAt_shift _ _ _ _ hadj

/-- C7 witness: the stable second pass of scenario 1 produces a contiguous
committed window; contiguity at index 0. -/
theorem c7_committed_window_contiguous_witness :
    ((reflowN 1 cfgA).getItems (reflowN 1 cfgA).lowerOf
        (reflowN 1 cfgA).upperOf).stable = true
      ∧ adjacentAt (reflowN 1 cfgA).spacing
          (((reflowN 1 cfgA).getItems (reflowN 1 cfgA).lowerOf
            (reflowN 1 cfgA).upperOf).physicalItems) 0 :=
  ⟨by decide, c7_committed_window_contiguous (reflowN 1 cfgA) _ _ (by decide) 0
    (by decide) (by decide)⟩

theorem getItemsRaw_get_first (s : L1State) (aIdx aPos lower upper : Int) :
    ∃ sz, (getItemsRaw s aIdx aPos lower upper).items.get
        (getItemsRaw s aIdx aPos lower upper).first
      = some { pos := (getItemsRaw s aIdx aPos lower upper).pMin, size := sz } := by
  rw [getItemsRaw_items, getItemsRaw_first, getItemsRaw_pMin]
  obtain ⟨hble, ⟨szb, hbself⟩, hbadj, hbpres⟩ := backRes_window s aIdx aPos lower upper
  obtain ⟨hfge, hfbelow, hfat, hfadj⟩ := fwdRes_window s aIdx aPos lower upper
  by_cases hc : (backRes s aIdx aPos lower upper).idx = aIdx
  · refine ⟨szb, ?_⟩
    rw [hc] at hbself ⊢
    rw [hfat]
    exact hbself
  · refine ⟨szb, ?_⟩
    rw [hfbelow _ (by omega)]
    exact hbself

/-- C3 amended: after the extent-error correction, (a) whenever the built
window includes index 0, item 0 sits at position exactly 0; (b) whenever
the window includes the last index *and the start-side correction branches
do not apply* (`first ≠ 0` and pre-correction `physicalMin > 0`),
`physicalMax` equals the content size.  When a start-side branch fires
together with `last = totalItems - 1`, the end is not pinned (see the
counterexample). -/
theorem c3_boundary_pinning_amended (s : L1State) (aIdx aPos lower upper : Int) :
    ((getItemsCore s aIdx aPos lower upper).first = 0 →
      ∃ sz, (getItemsCore s aIdx aPos lower upper).items.get 0
        = some { pos := 0, size := sz })
    ∧ ((getItemsRaw s aIdx aPos lower upper).first ≠ 0 →
        0 < (getItemsRaw s aIdx aPos lower upper).pMin →
        (getItemsRaw s aIdx aPos lower upper).last = s.totalItems - 1 →
        (getItemsCore s aIdx aPos lower upper).pMax = s.scrollSize) := by
  constructor
  · intro h0
    have h0' : (getItemsRaw s aIdx aPos lower upper).first = 0 := by
      rw [← getItemsCore_first]
      exact h0
    obtain ⟨sz, hget⟩ := getItemsRaw_get_first s aIdx aPos lower upper
    rw [h0'] at hget
    have herr : calcError (getItemsRaw s aIdx aPos lower upper).first
        (getItemsRaw s aIdx aPos lower upper).last
        (getItemsRaw s aIdx aPos lower upper).pMin
        (getItemsRaw s aIdx aPos lower upper).pMax
        s.scrollSize s.totalItems s.delta
        = (getItemsRaw s aIdx aPos lower upper).pMin := by
      unfold calcError
      rw [if_pos h0']
    unfold L1State.getItemsCore
    dsimp only
    rw [herr]
    by_cases hz : (getItemsRaw s aIdx aPos lower upper).pMin ≠ 0
    · rw [if_pos hz]
      refine ⟨sz, ?_⟩
      show ((getItemsRaw s aIdx aPos lower upper).items.shift
        (getItemsRaw s aIdx aPos lower upper).pMin).get 0 = _
      rw [PMap.get_shift, hget]
      simp [sub_self]
    · rw [if_neg hz]
      have hz' : (getItemsRaw s aIdx aPos lower upper).pMin = 0 := not_not.mp hz
      rw [hz'] at hget
      exact ⟨sz, hget⟩
  · intro hf hmin hlast
    have herr : calcError (getItemsRaw s aIdx aPos lower upper).first
        (getItemsRaw s aIdx aPos lower upper).last
        (getItemsRaw s aIdx aPos lower upper).pMin
        (getItemsRaw s aIdx aPos lower upper).pMax
        s.scrollSize s.totalItems s.delta
        = (getItemsRaw s aIdx aPos lower upper).pMax - s.scrollSize := by
      unfold calcError
      rw [if_neg hf, if_neg (by omega), if_pos hlast]
    unfold L1State.getItemsCore
    dsimp only
    rw [herr]
    by_cases hz : (getItemsRaw s aIdx aPos lower upper).pMax - s.scrollSize ≠ 0
    · rw [if_pos hz]
      show (getItemsRaw s aIdx aPos lower upper).pMax
        - ((getItemsRaw s aIdx aPos lower upper).pMax - s.scrollSize) = s.scrollSize
      omega
    · rw [if_neg hz]
      omega

/-- C3 amended witness: on the scenario-1 snapshot the pass reaches index 0
and pins it to position 0. -/
theorem c3_boundary_pinning_amended_witness :
    (cfgA.updateScrollSize.getItemsCore 0 0 cfgA.updateScrollSize.lowerOf
        cfgA.updateScrollSize.upperOf).first = 0
      ∧ ∃ sz, (cfgA.updateScrollSize.getItemsCore 0 0
          cfgA.updateScrollSize.lowerOf cfgA.updateScrollSize.upperOf).items.get 0
        = some { pos := 0, size := sz } :=
  ⟨by decide,
    (c3_boundary_pinning_amended cfgA.updateScrollSize 0 0
      cfgA.updateScrollSize.lowerOf cfgA.updateScrollSize.upperOf).1 (by decide)⟩

/-- C1 amended: under `totalItems > 0` and a nonzero viewport, a
`_getItems` pass yields `0 ≤ first`, `first ≤ last` and
`last ≤ totalItems - 1` provided additionally that the pass's anchor is a
valid index and the anchor position lies strictly below the (anchor-error
corrected) upper bound; without that proviso the pass can end with
`first = 0`, `last = -1`. -/
theorem c1_range_valid (s : L1State)
    (h0 : ¬(s.viewDim1 = 0 ∨ s.totalItems = 0))
    (ha0 : 0 ≤ (anchorOf s s.lowerOf s.upperOf).1)
    (han : (anchorOf s s.lowerOf s.upperOf).1 < s.totalItems)
    (hup : (anchorOf s s.lowerOf s.upperOf).2
      < s.upperAdj (anchorOf s s.lowerOf s.upperOf).1
          (anchorOf s s.lowerOf s.upperOf).2 s.lowerOf s.upperOf) :
    0 ≤ s.getActiveItems.first
      ∧ s.getActiveItems.first ≤ s.getActiveItems.last
      ∧ s.getActiveItems.last ≤ s.totalItems - 1 := by
  have heq : s.getActiveItems
      = getItemsFrom s (anchorOf s s.lowerOf s.upperOf).1
          (anchorOf s s.lowerOf s.upperOf).2 s.lowerOf s.upperOf := by
    unfold L1State.getActiveItems
    rw [if_neg h0]
    rfl
  have hfirst : s.getActiveItems.first
      = (backRes s (anchorOf s s.lowerOf s.upperOf).1
          (anchorOf s s.lowerOf s.upperOf).2 s.lowerOf s.upperOf).idx := by
    rw [heq, getItemsFrom_first, getItemsCore_first, getItemsRaw_first]
  have hlast : s.getActiveItems.last
      = (fwdRes s (anchorOf s s.lowerOf s.upperOf).1
          (anchorOf s s.lowerOf s.upperOf).2 s.lowerOf s.upperOf).idx - 1 := by
    rw [heq, getItemsFrom_last, getItemsCore_last, getItemsRaw_last]
  have hb := backRes_idx_bounds s (anchorOf s s.lowerOf s.upperOf).1
    (anchorOf s s.lowerOf s.upperOf).2 s.lowerOf s.upperOf ha0
  have hf := fwdRes_idx_bounds s (anchorOf s s.lowerOf s.upperOf).1
    (anchorOf s s.lowerOf s.upperOf).2 s.lowerOf s.upperOf (le_of_lt han)
  have hprog := fwdRes_progress s (anchorOf s s.lowerOf s.upperOf).1
    (anchorOf s s.lowerOf s.upperOf).2 s.lowerOf s.upperOf han hup
  rw [hfirst, hlast]
  omega

/-- C1 amended witness: the scenario-1 snapshot, after the pass's
content-size recomputation, satisfies the proviso and yields a valid
range. -/
theorem c1_range_valid_witness :
    (¬(cfgA.updateScrollSize.viewDim1 = 0 ∨ cfgA.updateScrollSize.totalItems = 0))
      ∧ (0 ≤ cfgA.updateScrollSize.getActiveItems.first
        ∧ cfgA.updateScrollSize.getActiveItems.first
          ≤ cfgA.updateScrollSize.getActiveItems.last
        ∧ cfgA.updateScrollSize.getActiveItems.last
          ≤ cfgA.updateScrollSize.totalItems - 1) :=
  ⟨by decide,
    c1_range_valid cfgA.updateScrollSize (by decide) (by decide) (by decide) (by decide)⟩

/-- C4: `_calculateError` returns exactly the value given by the spec's case
analysis (start pin, start overshoot, end pin, end overshoot, else zero),
evaluated in that order with "averageDelta" the average advance `_delta` and
"totalContentSize" the content size `_scrollSize`. -/
theorem c4_calculate_error_matches_spec (s : L1State) :
    calculateError s = calculateErrorSpec s := rfl

/-- C2: a `_getItems` pass commits the newly built window into
`_physicalItems` exactly when the pass was stable; when unstable, the
previously committed map is kept (so every one of its entries is unchanged)
and the built window stays in `_newPhysicalItems`. -/
theorem c2_commit_iff_stable (s : L1State) (lower upper : Int) :
    let a := anchorOf s lower upper
    let c := getItemsCore s a.1 a.2 lower upper
    let r := getItems s lower upper
    r.stable = c.stable
      ∧ r.physicalItems = (if c.stable then c.items else s.physicalItems)
      ∧ r.newPhysicalItems = (if c.stable then [] else c.items)
      ∧ (c.stable = false → ∀ k, r.physicalItems.get k = s.physicalItems.get k) := by
  refine ⟨rfl, rfl, rfl, ?_⟩
  intro h k
  show (if (getItemsCore s _ _ lower upper).stable then _ else s.physicalItems).get k = _
  rw [h]
  simp

/-- C2 witness: on a concrete unstable pass the committed map is unchanged. -/
theorem c2_commit_iff_stable_witness :
    (getItemsCore cfg3 (anchorOf cfg3 0 20).1 (anchorOf cfg3 0 20).2 0 20).stable = false
      ∧ ∀ k, (getItems cfg3 0 20).physicalItems.get k = cfg3.physicalItems.get k := by
  refine ⟨by decide, ?_⟩
  exact (c2_commit_iff_stable cfg3 0 20).2.2.2 (by decide)

/-- C9: a pass entered with zero total items or zero viewport extent
collapses the range to `first = last = -1`, resets the physical extent to
zero, and is immediately stable. -/
theorem c9_degenerate_collapse (s : L1State)
    (h : s.viewDim1 = 0 ∨ s.totalItems = 0) :
    (s.getActiveItems).first = -1 ∧ (s.getActiveItems).last = -1
      ∧ (s.getActiveItems).physicalMin = 0 ∧ (s.getActiveItems).physicalMax = 0
      ∧ (s.getActiveItems).stable = true := by
  unfold L1State.getActiveItems
  rw [if_pos h]
  exact ⟨rfl, rfl, rfl, rfl, rfl⟩

/-- C9 witness: the zero-item engine collapses to the empty range. -/
theorem c9_degenerate_collapse_witness :
    (baseState.viewDim1 = 0 ∨ baseState.totalItems = 0)
      ∧ ((baseState.getActiveItems).first = -1
        ∧ (baseState.getActiveItems).last = -1
        ∧ (baseState.getActiveItems).physicalMin = 0
        ∧ (baseState.getActiveItems).physicalMax = 0
        ∧ (baseState.getActiveItems).stable = true) :=
  ⟨Or.inl rfl, c9_degenerate_collapse baseState (Or.inl rfl)⟩

/-- C10: an index whose last-known size is exactly `0` is reported by
`_getItemSize` with the default per-item estimate `itemDim1` (JS `||`
replaces `0` just like `undefined`). -/
theorem c10_zero_size_reports_default (s : L1State) (idx : Int)
    (h : s.getSize idx = some 0) :
    s.getItemSize idx = (s.itemDim1, s.itemDim2) := by
  unfold L1State.getItemSize L1State.getItemSizeDim1
  rw [h]
  simp

/-- C10 witness: a committed zero-size item reports the default size. -/
theorem c10_zero_size_reports_default_witness :
    cex10.getSize 0 = some 0
      ∧ cex10.getItemSize 0 = (cex10.itemDim1, cex10.itemDim2) :=
  ⟨by decide, c10_zero_size_reports_default cex10 0 (by decide)⟩

/-- C8 counterexample: called on an engine where zero items have ever been
counted as measured, with a measurement for a windowed item,
`updateItemSizes` does not warn and does schedule a reflow (the source
checks `_nMeasured` only after absorbing the call's measurements), contrary
to the claim. -/
theorem c8_counterexample_precount :
    cex8.nMeasured = 0
      ∧ (updateItemSizes cex8 [(0, mkBox 7)]).2.1 = false
      ∧ (updateItemSizes cex8 [(0, mkBox 7)]).2.2 = true := by decide

theorem updateOne_spec (st : L1State) (idx : Int) (box : ItemBox)
    (hphys : (st.getPhysicalItem idx).isSome = true) :
    (updateOne st idx box).nMeasured
        = (match (st.metrics.get idx).map (fun wh => st.sizeDimOf wh) with
           | none => st.nMeasured + 1
           | some _ => st.nMeasured)
      ∧ (updateOne st idx box).tMeasured
        = st.tMeasured
          + (match (st.metrics.get idx).map (fun wh => st.sizeDimOf wh) with
             | none => (if st.vertical then effH box else effW box)
             | some p => (if st.vertical then effH box else effW box) - p)
      ∧ (updateOne st idx box).metrics = st.metrics.set idx (effW box, effH box)
      ∧ (updateOne st idx box).vertical = st.vertical
      ∧ (∀ i, ((updateOne st idx box).getPhysicalItem i).isSome
          = (st.getPhysicalItem i).isSome) := by
  obtain ⟨b, hb⟩ := Option.isSome_iff_exists.mp hphys
  unfold L1State.updateOne
  rw [hb]
  dsimp only
  refine ⟨rfl, rfl, rfl, rfl, ?_⟩
  intro i
  unfold L1State.getPhysicalItem at hb ⊢
  dsimp only
  by_cases hi : i = idx
  · subst hi
    by_cases hn : (st.newPhysicalItems.get i).isSome = true
    · rw [if_pos hn, if_pos hn]
      obtain ⟨nb, hnb⟩ := Option.isSome_iff_exists.mp hn
      rw [PMap.get_set_self, hnb]
      rfl
    · rw [if_neg hn, if_neg hn]
      have hnone : st.newPhysicalItems.get i = none := by
        cases hg : st.newPhysicalItems.get i with
        | none => rfl
        | some x => rw [hg] at hn; exact absurd rfl hn
      rw [hnone] at hb ⊢
      rw [PMap.get_set_self]
      cases hp : st.physicalItems.get i with
      | none => rw [hp] at hb; exact absurd hb (by simp [Option.orElse])
      | some x => rfl
  · by_cases hn : (st.newPhysicalItems.get idx).isSome = true
    · rw [if_pos hn, if_pos hn]
      rw [PMap.get_set_ne _ _ _ _ hi]
    · rw [if_neg hn, if_neg hn]
      rw [PMap.get_set_ne _ _ _ _ hi]

theorem measuredInv_step (s st : L1State) (p : List (Int × ItemBox))
    (idx : Int) (box : ItemBox)
    (hInv : measuredInv s st p)
    (hphys : (s.getPhysicalItem idx).isSome = true) :
    measuredInv s (updateOne st idx box) (p ++ [(idx, box)]) := by
  obtain ⟨hn, ht, hm, hv, hpres⟩ := hInv
  have hphys' : (st.getPhysicalItem idx).isSome = true := by
    rw [hpres idx]; exact hphys
  obtain ⟨sn, stt, smet, sver, spres⟩ := updateOne_spec st idx box hphys'
  have hWF := latestSizes_WF s.vertical p
  have hprev : (st.metrics.get idx).map (fun wh => st.sizeDimOf wh)
      = (latestSizes s.vertical p).get idx := by
    simpa [L1State.sizeDimOf, hv] using hm idx
  have hsize : (if st.vertical then effH box else effW box)
      = sizeOfBox s.vertical box := by
    rw [hv]; rfl
  unfold measuredInv
  rw [latestSizes_append]
  cases hcase : (latestSizes s.vertical p).get idx with
  | none =>
    rw [hcase] at hprev
    refine ⟨?_, ?_, ?_, ?_, ?_⟩
    · rw [sn, hprev, SMap.length_set_none _ _ _ hcase, hn]
    · rw [stt, hprev, SMap.sumOf_set_none _ _ _ hcase, ht, hsize]
    · intro i
      by_cases hi : i = idx
      · subst hi
        rw [smet, MMap.metrics_get_set_self, SMap.sizes_get_set_self]
        rfl
      · rw [smet, MMap.metrics_get_set_ne _ _ _ _ hi, SMap.sizes_get_set_ne _ _ _ _ hi]
        exact hm i
    · rw [sver, hv]
    · intro i
      rw [spres i, hpres i]
  | some w =>
    rw [hcase] at hprev
    refine ⟨?_, ?_, ?_, ?_, ?_⟩
    · rw [sn, hprev, SMap.length_set_some _ _ _ w hWF hcase, hn]
    · rw [stt, hprev]
      dsimp only
      rw [hsize, SMap.sumOf_set_some _ _ _ w hWF hcase, ht]
      ring
    · intro i
      by_cases hi : i = idx
      · subst hi
        rw [smet, MMap.metrics_get_set_self, SMap.sizes_get_set_self]
        rfl
      · rw [smet, MMap.metrics_get_set_ne _ _ _ _ hi, SMap.sizes_get_set_ne _ _ _ _ hi]
        exact hm i
    · rw [sver, hv]
    · intro i
      rw [spres i, hpres i]

theorem measuredInv_fold (s : L1State) (l : List (Int × ItemBox)) :
    ∀ (st : L1State) (p : List (Int × ItemBox)),
      measuredInv s st p →
      (∀ e ∈ l, (s.getPhysicalItem e.1).isSome = true) →
      measuredInv s (l.foldl (fun a e => updateOne a e.1 e.2) st) (p ++ l) := by
  induction l with
  | nil =>
    intro st p h _
    simpa using h
  | cons e t ih =>
    intro st p h hall
    rw [List.foldl_cons]
    have hstep := measuredInv_step s st p e.1 e.2 h (hall e (by simp))
    have := ih (updateOne st e.1 e.2) (p ++ [e]) hstep
      (fun x hx => hall x (by simp [hx]))
    simpa using this

theorem measuredInv_updateItemSize (s st : L1State) (p : List (Int × ItemBox))
    (h : measuredInv s st p) : measuredInv s st.updateItemSize p := h

theorem measuredInv_run (s : L1State) (calls : List (List (Int × ItemBox))) :
    ∀ (st : L1State) (p : List (Int × ItemBox)),
      measuredInv s st p →
      (∀ e ∈ calls.join, (s.getPhysicalItem e.1).isSome = true) →
      measuredInv s (updateItemSizesRun st calls) (p ++ calls.join)
        ∧ (calls ≠ [] → p ++ calls.join ≠ [] →
          (updateItemSizesRun st calls).itemDim1
            = jsRound (SMap.sumOf (latestSizes s.vertical (p ++ calls.join)))
                ((latestSizes s.vertical (p ++ calls.join)).length : Int)) := by
  induction calls with
  | nil =>
    intro st p h _
    refine ⟨by simpa using h, ?_⟩
    intro hc _
    exact absurd rfl hc
  | cons c cs ih =>
    intro st p h hall
    have hfold := measuredInv_fold s c st p h
      (fun e he => hall e (by simp [he]))
    have hcall : measuredInv s (updateItemSizes st c).1 (p ++ c) := by
      unfold L1State.updateItemSizes
      dsimp only
      split
      · exact hfold
      · exact measuredInv_updateItemSize s _ _ hfold
    have hrec := ih (updateItemSizes st c).1 (p ++ c) hcall
      (fun e he => hall e (by simp [he]))
    have hjoin : (p ++ c) ++ cs.join = p ++ (c :: cs).join := by
      simp
    constructor
    · show measuredInv s (updateItemSizesRun (updateItemSizes st c).1 cs) _
      rw [← hjoin]
      exact hrec.1
    · intro _ hne
      show (updateItemSizesRun (updateItemSizes st c).1 cs).itemDim1 = _
      by_cases hcs : cs = []
      · subst hcs
        have hpc : p ++ c ≠ [] := by
          intro hempty
          apply hne
          have : (c :: ([] : List (List (Int × ItemBox)))).join = c := by simp
          rw [this]
          exact hempty
        have hlen : (latestSizes s.vertical (p ++ c)).length ≠ 0 := by
          intro hzero
          exact latestSizes_ne_nil s.vertical (p ++ c) hpc
            (List.length_eq_zero.mp hzero)
        show (updateItemSizes st c).1.itemDim1 = _
        have hjoin2 : p ++ (c :: ([] : List (List (Int × ItemBox)))).join = p ++ c := by
          simp
        rw [hjoin2]
        obtain ⟨hn1, ht1, -, -, -⟩ := hfold
        unfold L1State.updateItemSizes
        dsimp only
        split
        · rename_i hzero
          rw [hn1] at hzero
          exact absurd hzero hlen
        · show ((c.foldl (fun a e => updateOne a e.1 e.2) st).updateItemSize).itemDim1 = _
          unfold L1State.updateItemSize
          dsimp only
          rw [hn1, ht1]
      · have := hrec.2 hcs (by rw [hjoin]; exact hne)
        rw [hjoin] at this
        exact this

/-- C6: starting from a fresh aggregator (no metrics, zero count and total),
a sequence of `updateItemSizes` calls measuring only currently-windowed
items leaves the average item size equal to
`round(sum of latest effective sizes over the measured set / |measured set|)`
— a function of the latest-size map only, hence independent of the order in
which distinct items' measurements arrive, with only the latest measurement
of an item counting. -/
theorem c6_average_size_correct (s : L1State)
    (calls : List (List (Int × ItemBox)))
    (h0 : s.nMeasured = 0) (h1 : s.tMeasured = 0) (h2 : s.metrics = [])
    (hphys : ∀ e ∈ calls.join, (s.getPhysicalItem e.1).isSome = true)
    (hcalls : calls ≠ []) (hne : calls.join ≠ []) :
    (updateItemSizesRun s calls).itemDim1
      = jsRound (SMap.sumOf (latestSizes s.vertical calls.join))
          ((latestSizes s.vertical calls.join).length : Int) := by
  have hInv0 : measuredInv s s [] := by
    refine ⟨by simpa [latestSizes] using h0, by simpa [latestSizes, SMap.sumOf] using h1,
      ?_, rfl, fun i => rfl⟩
    intro i
    rw [h2]
    rfl
  have := (measuredInv_run s calls s [] hInv0 hphys).2 hcalls (by simpa using hne)
  simpa using this

/-- C6 witness: measuring item 0 at 5 then item 1 at 8 and item 0 again
at 7 yields average `round((7 + 8) / 2) = 8`. -/
theorem c6_average_size_correct_witness :
    (cex6.nMeasured = 0 ∧ cex6.tMeasured = 0 ∧ cex6.metrics = []
      ∧ (∀ e ∈ cex6Calls.join, (cex6.getPhysicalItem e.1).isSome = true)
      ∧ cex6Calls ≠ [] ∧ cex6Calls.join ≠ [])
      ∧ (updateItemSizesRun cex6 cex6Calls).itemDim1
        = jsRound (SMap.sumOf (latestSizes cex6.vertical cex6Calls.join))
            ((latestSizes cex6.vertical cex6Calls.join).length : Int) :=
  ⟨⟨by decide, by decide, by decide, by decide, by decide, by decide⟩,
    c6_average_size_correct cex6 cex6Calls (by decide) (by decide) (by decide)
      (by decide) (by decide) (by decide)⟩

theorem updateOne_itemDim1 (s : L1State) (idx : Int) (b : ItemBox) :
    (updateOne s idx b).itemDim1 = s.itemDim1 := by
  unfold L1State.updateOne
  cases h : s.getPhysicalItem idx <;> simp [h]

theorem foldl_updateOne_itemDim1 (l : List (Int × ItemBox)) (s : L1State) :
    (l.foldl (fun st e => updateOne st e.1 e.2) s).itemDim1 = s.itemDim1 := by
  induction l generalizing s with
  | nil => rfl
  | cons e t ih => rw [List.foldl_cons, ih, updateOne_itemDim1]

/-- C8 amended: `updateItemSizes` warns, skips the average update and skips
the reflow exactly when the measured count is still zero *after* absorbing
the call's measurements; otherwise it does not warn, recomputes the average
as `round(total/count)` and schedules a reflow.  (The call never throws: it
is modelled by a total function.) -/
theorem c8_amended_postcount (s : L1State) (sizes : List (Int × ItemBox)) :
    ((updateItemSizes s sizes).1.nMeasured = 0 →
        (updateItemSizes s sizes).2.1 = true
          ∧ (updateItemSizes s sizes).2.2 = false
          ∧ (updateItemSizes s sizes).1.itemDim1 = s.itemDim1)
      ∧ ((updateItemSizes s sizes).1.nMeasured ≠ 0 →
        (updateItemSizes s sizes).2.1 = false
          ∧ (updateItemSizes s sizes).2.2 = true
          ∧ (updateItemSizes s sizes).1.itemDim1
            = jsRound (updateItemSizes s sizes).1.tMeasured
                ((updateItemSizes s sizes).1.nMeasured : Int)) := by
  unfold L1State.updateItemSizes
  by_cases h : (sizes.foldl (fun st e => updateOne st e.1 e.2) s).nMeasured = 0
  · rw [if_pos h]
    exact ⟨fun _ => ⟨rfl, rfl, foldl_updateOne_itemDim1 sizes s⟩,
      fun hne => absurd h hne⟩
  · rw [if_neg h]
    exact ⟨fun h0 => absurd h0 h, fun _ => ⟨rfl, rfl, rfl⟩⟩

/-- C8 amended witness: the concrete call from the counterexample lands in
the measured branch and recomputes the average. -/
theorem c8_amended_postcount_witness :
    (updateItemSizes cex8 [(0, mkBox 7)]).1.nMeasured ≠ 0
      ∧ ((updateItemSizes cex8 [(0, mkBox 7)]).2.1 = false
        ∧ (updateItemSizes cex8 [(0, mkBox 7)]).2.2 = true
        ∧ (updateItemSizes cex8 [(0, mkBox 7)]).1.itemDim1
          = jsRound (updateItemSizes cex8 [(0, mkBox 7)]).1.tMeasured
              ((updateItemSizes cex8 [(0, mkBox 7)]).1.nMeasured : Int)) :=
  ⟨by decide, (c8_amended_postcount cex8 [(0, mkBox 7)]).2 (by decide)⟩

/-- C1 counterexample: with one item, default size 10, viewport 5 and
spacing 100, the first pass returns from `_getItems` with a stable
(committed) window yet `first = 0 > last = -1`, so the range is not a pair
of valid indices with `first ≤ last`. -/
theorem c1_counterexample_degenerate_range :
    cfg1.totalItems = 1 ∧ cfg1.viewDim1 = 5
      ∧ (reflow cfg1).1.stable = true
      ∧ (reflow cfg1).1.newPhysicalItems = []
      ∧ (reflow cfg1).1.first = 0 ∧ (reflow cfg1).1.last = -1
      ∧ ¬((reflow cfg1).1.first ≤ (reflow cfg1).1.last) := by decide

/-- C3 counterexample: after remeasuring both items of `cfg3` smaller, the
next growth pass ends with the window holding both the first and the last
index, yet `physicalMax = 8` differs from the content size `20` (the
start-pin branch of `_calculateError` preempts the end pin). -/
theorem c3_counterexample_end_not_pinned :
    let r := cex3Entry.getActiveItems
    r.stable = true ∧ r.first = 0 ∧ r.last = r.totalItems - 1
      ∧ r.physicalMax ≠ r.scrollSize := by decide

theorem entry_eta (m : PMap) (i : Int) (h : (m.get i).isSome = true) :
    m.get i = some { pos := ((m.get i).map (·.pos)).getD 0
                     size := ((m.get i).map (·.size)).getD 0 } := by
  cases hg : m.get i with
  | none => rw [hg] at h; exact absurd h (by simp)
  | some b => rfl

theorem SettledInv.entry {s : L1State} (h : SettledInv s) {i : Int}
    (h1 : s.first ≤ i) (h2 : i ≤ s.last) :
    s.physicalItems.get i = some { pos := posAt s i, size := sizeAt s i }
      ∧ 0 ≤ sizeAt s i := by
  obtain ⟨-, -, -, -, -, -, -, -, -, -, -, -, -, -, -, hent, -⟩ := h
  have hk : (i - s.first).toNat < winCount s := by
    unfold winCount; omega
  have hi : s.first + ((i - s.first).toNat : Int) = i := by omega
  have := hent (i - s.first).toNat hk
  rw [hi] at this
  exact ⟨entry_eta _ _ this.1, this.2⟩

theorem SettledInv.adjIdx {s : L1State} (h : SettledInv s) {i : Int}
    (h1 : s.first ≤ i) (h2 : i < s.last) :
    posAt s i + sizeAt s i + s.spacing = posAt s (i + 1) := by
  obtain ⟨-, -, -, -, -, -, -, -, -, -, -, -, -, -, -, -, hadj, -⟩ := h
  have hk : (i - s.first).toNat < winCount s ∧ (i - s.first).toNat + 1 < winCount s := by
    unfold winCount; omega
  have hi : s.first + ((i - s.first).toNat : Int) = i := by omega
  have := hadj (i - s.first).toNat hk.1 hk.2
  rw [hi] at this
  exact this

theorem SettledInv.aboveIdx {s : L1State} (h : SettledInv s) {i : Int}
    (h1 : s.first < i) (h2 : i ≤ s.last) : s.lowerOf < posAt s i := by
  obtain ⟨-, -, -, -, -, -, -, -, -, -, -, -, -, -, -, -, -, -, -, -, -,
    habove, -⟩ := h
  have hk : 0 < (i - s.first).toNat ∧ (i - s.first).toNat < winCount s := by
    unfold winCount; omega
  have hi : s.first + ((i - s.first).toNat : Int) = i := by omega
  have := habove (i - s.first).toNat hk.2 hk.1
  rw [hi] at this
  exact this

theorem SettledInv.monoAux {s : L1State} (h : SettledInv s) :
    ∀ (k : Nat) (i : Int), s.first ≤ i → i + k ≤ s.last →
      posAt s i ≤ posAt s (i + k) := by
  intro k
  induction k with
  | zero => intro i _ _; simp
  | succ n ih =>
    intro i hi1 hi2
    have hn : i + (n : Int) ≤ s.last := by push_cast at hi2 ⊢; omega
    have step := SettledInv.adjIdx h (i := i + n)
      (by omega) (by push_cast at hi2; omega)
    have hsz := (SettledInv.entry h (i := i + n) (by omega)
      (by push_cast at hi2; omega)).2
    have hsp : 0 ≤ s.spacing := h.2.2.1
    calc posAt s i ≤ posAt s (i + n) := ih i hi1 hn
      _ ≤ posAt s (i + n) + sizeAt s (i + n) + s.spacing := by omega
      _ = posAt s (i + n + 1) := step
      _ = posAt s (i + (n + 1 : Nat)) := by push_cast; ring_nf

theorem SettledInv.monoIdx {s : L1State} (h : SettledInv s) {i j : Int}
    (hij : i ≤ j) (h1 : s.first ≤ i) (h2 : j ≤ s.last) :
    posAt s i ≤ posAt s j := by
  have hk : i + ((j - i).toNat : Int) = j := by omega
  have := SettledInv.monoAux h (j - i).toNat i h1 (by omega)
  rw [hk] at this
  exact this

theorem rebuild_back (s : L1State) (a : Int) (hInv : SettledInv s)
    (ha1 : s.first ≤ a) (ha2 : a ≤ s.last) :
    ∀ (fuel : Nat) (g : GrowState),
      s.first ≤ g.idx → g.idx ≤ a →
      g.pos = posAt s g.idx →
      g.stable = true →
      (∀ j, s.first ≤ j → j ≤ s.last →
        g.items.get j
          = (if g.idx ≤ j ∧ j ≤ a then s.physicalItems.get j else none)) →
      (fuel : Int) ≥ g.idx - s.first →
      (growBack s.physicalItems s.itemDim1 s.spacing s.lowerOf s.estimate
          fuel g).idx = s.first
        ∧ (growBack s.physicalItems s.itemDim1 s.spacing s.lowerOf s.estimate
          fuel g).pos = posAt s s.first
        ∧ (growBack s.physicalItems s.itemDim1 s.spacing s.lowerOf s.estimate
          fuel g).stable = true
        ∧ (∀ j, s.first ≤ j → j ≤ s.last →
          (growBack s.physicalItems s.itemDim1 s.spacing s.lowerOf s.estimate
            fuel g).items.get j
            = (if j ≤ a then s.physicalItems.get j else none)) := by
  have hInv' := hInv
  obtain ⟨hn, hv, hsp, hd, hoh, hsc0, hsc1, hai, hnew, hst, hrm, hf0, hfl,
    hln, hss, hent, hadj, hpmin, hpmax, hpin0, hfpos, habove, hlu, hcov,
    hpin1, hpin2, hlmax⟩ := hInv'
  intro fuel
  induction fuel with
  | zero =>
    intro g hgi1 hgi2 hgp hgs hgitems hfuel
    have hidx : g.idx = s.first := by
      have : ((0 : Nat) : Int) = 0 := rfl
      omega
    rw [show growBack s.physicalItems s.itemDim1 s.spacing s.lowerOf
        s.estimate 0 g = g from rfl]
    refine ⟨hidx, by rw [hgp, hidx], hgs, ?_⟩
    intro j hj1 hj2
    rw [hgitems j hj1 hj2, hidx]
    by_cases hja : j ≤ a
    · rw [if_pos ⟨hj1, hja⟩, if_pos hja]
    · rw [if_neg (by omega), if_neg hja]
  | succ n ih =>
    intro g hgi1 hgi2 hgp hgs hgitems hfuel
    rw [growBack]
    by_cases hguard : g.pos > s.lowerOf ∧ g.idx > 0
    · rw [if_pos hguard]
      have hgt : s.first < g.idx := by
        by_contra hc
        have he : g.idx = s.first := by omega
        have hfp := (hfpos (by omega)).1
        rw [hgp, he] at hguard
        omega
      have hfb1 : s.first ≤ g.idx - 1 := by omega
      have hfb2 : g.idx - 1 ≤ s.last := by omega
      have hentf := hInv.entry hfb1 hfb2
      have hnone : g.items.get (g.idx - 1) = none := by
        rw [hgitems (g.idx - 1) hfb1 hfb2, if_neg (by omega)]
      have hsz : getSize2 g.items s.physicalItems (g.idx - 1)
          = some (sizeAt s (g.idx - 1)) := by
        unfold L1State.getSize2
        rw [hnone, hentf.1]
        rfl
      have hadjf := hInv.adjIdx hfb1 (show g.idx - 1 < s.last by omega)
      have hbidx : (backStep s.physicalItems s.itemDim1 s.spacing g).idx
          = g.idx - 1 := backStep_idx _ _ _ _
      have hbpos : (backStep s.physicalItems s.itemDim1 s.spacing g).pos
          = posAt s (g.idx - 1) := by
        rw [backStep_pos, hsz, Option.getD_some, hgp]
        have hgi : g.idx - 1 + 1 = g.idx := by omega
        rw [hgi] at hadjf
        omega
      have hbstable : (backStep s.physicalItems s.itemDim1 s.spacing g).stable
          = true := by
        rw [backStep_stable, hsz]
        simpa using hgs
      rw [if_neg (by rw [hbstable]; simp)]
      have hres := ih (backStep s.physicalItems s.itemDim1 s.spacing g)
        (by rw [hbidx]; omega) (by rw [hbidx]; omega)
        (by rw [hbidx, hbpos]) hbstable
        ?_ ?_
      · exact hres
      · intro j hj1 hj2
        by_cases hjf : j = g.idx - 1
        · subst hjf
          have := backStep_get_self s.physicalItems s.itemDim1 s.spacing g
          rw [this, hsz, Option.getD_some, hbidx]
          rw [if_pos ⟨le_refl _, by omega⟩]
          rw [hentf.1, hbpos]
        · rw [backStep_get_ne _ _ _ _ _ hjf, hgitems j hj1 hj2, hbidx]
          by_cases hc1 : g.idx ≤ j ∧ j ≤ a
          · rw [if_pos hc1, if_pos ⟨by omega, hc1.2⟩]
          · rw [if_neg hc1, if_neg (by omega)]
      · rw [hbidx]
        push_cast at hfuel ⊢
        omega
    · rw [if_neg hguard]
      have hidx : g.idx = s.first := by
        by_contra hc
        have hgt : s.first < g.idx := by omega
        have habv := hInv.aboveIdx hgt (by omega)
        exact hguard ⟨by rw [hgp]; omega, by omega⟩
      refine ⟨hidx, by rw [hgp, hidx], hgs, ?_⟩
      intro j hj1 hj2
      rw [hgitems j hj1 hj2, hidx]
      by_cases hja : j ≤ a
      · rw [if_pos ⟨hj1, hja⟩, if_pos hja]
      · rw [if_neg (by omega), if_neg hja]

theorem rebuild_fwd (s : L1State) (a : Int) (hInv : SettledInv s)
    (ha1 : s.first ≤ a) (ha2 : a ≤ s.last) :
    ∀ (fuel : Nat) (g : GrowState),
      a ≤ g.idx → g.idx ≤ s.last + 1 →
      g.pos = (if g.idx ≤ s.last then posAt s g.idx else s.physicalMax) →
      g.stable = true →
      (∀ j, s.first ≤ j → j ≤ s.last →
        g.items.get j
          = (if j ≤ a ∨ j < g.idx then s.physicalItems.get j else none)) →
      (fuel : Int) ≥ s.last + 1 - g.idx →
      (growFwd s.physicalItems s.itemDim1 s.spacing s.upperOf s.totalItems
          s.estimate fuel g).idx = s.last + 1
        ∧ (growFwd s.physicalItems s.itemDim1 s.spacing s.upperOf s.totalItems
          s.estimate fuel g).pos = s.physicalMax
        ∧ (growFwd s.physicalItems s.itemDim1 s.spacing s.upperOf s.totalItems
          s.estimate fuel g).stable = true
        ∧ (∀ j, s.first ≤ j → j ≤ s.last →
          (growFwd s.physicalItems s.itemDim1 s.spacing s.upperOf s.totalItems
            s.estimate fuel g).items.get j = s.physicalItems.get j) := by
  have hInv' := hInv
  obtain ⟨hn, hv, hsp, hd, hoh, hsc0, hsc1, hai, hnew, hst, hrm, hf0, hfl,
    hln, hss, hent, hadj, hpmin, hpmax, hpin0, hfpos, habove, hlu, hcov,
    hpin1, hpin2, hlmax⟩ := hInv'
  intro fuel
  induction fuel with
  | zero =>
    intro g hgi1 hgi2 hgp hgs hgitems hfuel
    have hidx : g.idx = s.last + 1 := by
      have : ((0 : Nat) : Int) = 0 := rfl
      omega
    rw [show growFwd s.physicalItems s.itemDim1 s.spacing s.upperOf
        s.totalItems s.estimate 0 g = g from rfl]
    refine ⟨hidx, ?_, hgs, ?_⟩
    · rw [hgp, if_neg (by omega)]
    · intro j hj1 hj2
      rw [hgitems j hj1 hj2, if_pos (by omega)]
  | succ n ih =>
    intro g hgi1 hgi2 hgp hgs hgitems hfuel
    rw [growFwd]
    by_cases hguard : g.pos < s.upperOf ∧ g.idx < s.totalItems
    · rw [if_pos hguard]
      have hle : g.idx ≤ s.last := by
        by_contra hc
        have hidx : g.idx = s.last + 1 := by omega
        rw [hgp, if_neg (by omega)] at hguard
        rcases hcov with hcov1 | hcov2
        · omega
        · rw [hidx] at hguard
          omega
      have hj1 : s.first ≤ g.idx := by omega
      have hentj := hInv.entry hj1 hle
      have hsz : getSize2 g.items s.physicalItems g.idx
          = some (sizeAt s g.idx) := by
        unfold L1State.getSize2
        by_cases hja : g.idx ≤ a
        · have hja' : g.idx = a := by omega
          rw [hgitems g.idx hj1 hle, if_pos (Or.inl hja), hentj.1]
          rfl
        · rw [hgitems g.idx hj1 hle, if_neg (by omega), hentj.1]
          rfl
      have hgpos : g.pos = posAt s g.idx := by
        rw [hgp, if_pos hle]
      have hfidx : (fwdStep s.physicalItems s.itemDim1 s.spacing g).idx
          = g.idx + 1 := fwdStep_idx _ _ _ _
      have hfpos' : (fwdStep s.physicalItems s.itemDim1 s.spacing g).pos
          = (if g.idx + 1 ≤ s.last then posAt s (g.idx + 1) else s.physicalMax) := by
        rw [fwdStep_pos, hsz, Option.getD_some, hgpos]
        by_cases hlt : g.idx < s.last
        · rw [if_pos (by omega)]
          have hadjx := hInv.adjIdx hj1 hlt
          omega
        · have hidx : g.idx = s.last := by omega
          rw [if_neg (by omega), hidx]
          omega
      have hfstable : (fwdStep s.physicalItems s.itemDim1 s.spacing g).stable
          = true := by
        rw [fwdStep_stable, hsz]
        simpa using hgs
      rw [if_neg (by rw [hfstable]; simp)]
      have hres := ih (fwdStep s.physicalItems s.itemDim1 s.spacing g)
        (by rw [hfidx]; omega) (by rw [hfidx]; omega)
        (by rw [hfidx, hfpos']) hfstable
        ?_ ?_
      · exact hres
      · intro j hj1' hj2'
        by_cases hjg : j = g.idx
        · subst hjg
          have := fwdStep_get_self s.physicalItems s.itemDim1 s.spacing g
          rw [this, hsz, Option.getD_some, hfidx]
          rw [if_pos (Or.inr (by omega))]
          rw [hentj.1, hgpos]
        · rw [fwdStep_get_ne _ _ _ _ _ hjg, hgitems j hj1' hj2', hfidx]
          by_cases hc1 : j ≤ a ∨ j < g.idx
          · rw [if_pos hc1, if_pos (by omega)]
          · rw [if_neg hc1, if_neg (by omega)]
      · rw [hfidx]
        push_cast at hfuel ⊢
        omega
    · rw [if_neg hguard]
      have hidx : g.idx = s.last + 1 := by
        by_contra hc
        have hle : g.idx ≤ s.last := by omega
        apply hguard
        constructor
        · rw [hgp, if_pos hle]
          have := hInv.monoIdx hle (by omega) (le_refl _)
          omega
        · omega
      refine ⟨hidx, ?_, hgs, ?_⟩
      · rw [hgp, if_neg (by omega)]
      · intro j hj1 hj2
        rw [hgitems j hj1 hj2, if_pos (by omega)]

/-- C5 counterexample: `cex5Pre`'s next pass settles (range unchanged,
anchor cleared, stable) emitting positions `[(1, 3)]`; re-running `_reflow`
with no measurements, no scroll change and no resize emits the same range
but different positions `[(1, 0)]` — the settled state is not a fixed
point. -/
theorem c5_counterexample_not_fixed_point :
    let r1 := reflow cex5Pre
    let r2 := reflow r1.1
    r1.1.anchorIdx = none ∧ r1.1.stable = true
      ∧ r1.2.rangeFirst = cex5Pre.first ∧ r1.2.rangeLast = cex5Pre.last
      ∧ r2.2.rangeFirst = r1.2.rangeFirst ∧ r2.2.rangeLast = r1.2.rangeLast
      ∧ r1.2.positions = some [(1, 3)]
      ∧ r2.2.positions = some [(1, 0)] := by decide

end Layout1d

namespace Layout1d
open L1State

/-- When the stored content size already equals the base/physical maximum,
`_updateScrollSize` changes nothing. -/
theorem updateScrollSize_settled (s : L1State)
    (h : max s.physicalMax (s.totalItems * s.delta) = s.scrollSize) :
    s.updateScrollSize = s := by
  show ({ s with scrollSize := max s.physicalMax (s.totalItems * s.delta) } : L1State) = s
  rw [h]

/-- When the scroll position is already inside the valid range,
`_scrollIfNeeded` changes nothing. -/
theorem scrollIfNeeded_id (s : L1State) (h0 : 0 ≤ s.scrollPosition)
    (h1 : s.scrollPosition ≤ s.scrollSize - s.viewDim1) :
    s.scrollIfNeeded = s := by
  have hx : max 0 (min s.scrollPosition (s.scrollSize - s.viewDim1))
      = s.scrollPosition := by omega
  unfold L1State.scrollIfNeeded
  rw [hx]

theorem SettledInv.upper_pos {s : L1State} (h : SettledInv s) : 0 < s.upperOf := by
  obtain ⟨hn, hv, hsp, hd, hoh, hsc0, hsc1, -⟩ := h
  unfold L1State.upperOf
  omega

theorem SettledInv.lower_le_upper {s : L1State} (h : SettledInv s) :
    s.lowerOf ≤ s.upperOf := by
  have hu := h.upper_pos
  obtain ⟨hn, hv, hsp, hd, hoh, -⟩ := h
  unfold L1State.lowerOf
  omega

theorem SettledInv.posFirst_le_upper {s : L1State} (h : SettledInv s) :
    posAt s s.first ≤ s.upperOf := by
  have hu := h.upper_pos
  have hlu := h.lower_le_upper
  have hInv := h
  obtain ⟨hn, hv, hsp, hd, hoh, hsc0, hsc1, hai, hnew, hst, hrm, hf0, hfl,
    hln, hss, hent, hadj, hpmin, hpmax, hpin0, hfpos, -⟩ := hInv
  by_cases hz : s.first = 0
  · rw [hz, hpin0 hz]
    omega
  · have := (hfpos (by omega)).1
    omega

/-- With an empty in-progress map, `_getPhysicalItem` reads the committed
window. -/
theorem getPhysicalItem_committed (s : L1State)
    (hnew : s.newPhysicalItems = []) (i : Int) :
    s.getPhysicalItem i = s.physicalItems.get i := by
  unfold L1State.getPhysicalItem
  rw [hnew]
  rfl

/-- In a settled state the anchor size read by `_getItems` is the committed
size. -/
theorem anchorSizeOf_committed (s : L1State) (h : SettledInv s) {a : Int}
    (ha1 : s.first ≤ a) (ha2 : a ≤ s.last) :
    s.anchorSizeOf a = sizeAt s a := by
  have hb := (h.entry ha1 ha2).1
  have hInv := h
  obtain ⟨hn, hv, hsp, hd, hoh, hsc0, hsc1, hai, hnew, -⟩ := hInv
  unfold L1State.anchorSizeOf L1State.getSize2
  rw [hnew, hb]
  rfl

theorem getPosition_committed (s : L1State) {a : Int} {b : ItemBounds}
    (hb : s.physicalItems.get a = some b) : s.getPosition a = b.pos := by
  unfold L1State.getPosition
  rw [hb]

/-- In a settled state `_getAnchor` picks the first or last committed item of
the window: its bounds overlap the target interval on the correct side. -/
theorem getAnchor_settled (s : L1State) (h : SettledInv s) :
    (s.first ≤ s.getAnchor s.lowerOf s.upperOf
        ∧ s.getAnchor s.lowerOf s.upperOf ≤ s.last)
      ∧ s.lowerOf ≤ posAt s (s.getAnchor s.lowerOf s.upperOf)
          + sizeAt s (s.getAnchor s.lowerOf s.upperOf) + s.spacing
      ∧ posAt s (s.getAnchor s.lowerOf s.upperOf) ≤ s.upperOf := by
  have hupf := h.posFirst_le_upper
  have hlup := h.lower_le_upper
  have hInv := h
  obtain ⟨hn, hv, hsp, hd, hoh, hsc0, hsc1, hai, hnew, hst, hrm, hf0, hfl,
    hln, hss, hent, hadj, hpmin, hpmax, hpin0, hfpos, habove, hlu, hcov,
    hpin1, hpin2, hlmax⟩ := hInv
  have hef := h.entry (le_refl s.first) hfl
  have hel := h.entry hfl (le_refl s.last)
  have hne : s.physicalItems ≠ [] := by
    intro he
    have hx := hef.1
    rw [he] at hx
    exact absurd hx (by simp [PMap.get])
  unfold L1State.getAnchor
  rw [if_neg hne, if_neg (by omega), if_neg (by omega)]
  rw [getPhysicalItem_committed s hnew s.first,
    getPhysicalItem_committed s hnew s.last, hef.1, hel.1]
  dsimp only
  rw [if_neg (by omega)]
  rw [if_neg (by omega)]
  by_cases hc : posAt s s.first ≥ s.lowerOf
      ∨ posAt s s.first + sizeAt s s.first ≥ s.lowerOf
  · rw [if_pos hc]
    have hszf := hef.2
    exact ⟨⟨le_refl _, hfl⟩, by omega, hupf⟩
  · rw [if_neg hc, if_pos (Or.inr (le_of_lt hlu))]
    have hszl := hel.2
    exact ⟨⟨hfl, le_refl _⟩, by omega, le_of_lt hlu⟩

theorem getItemsFrom_scrollPosition (s : L1State) (aIdx aPos lower upper : Int) :
    (getItemsFrom s aIdx aPos lower upper).scrollPosition
      = (getItemsCore s aIdx aPos lower upper).scrollPos := rfl

theorem getItemsFrom_scrollSize (s : L1State) (aIdx aPos lower upper : Int) :
    (getItemsFrom s aIdx aPos lower upper).scrollSize = s.scrollSize := rfl

theorem getItemsFrom_needsRemeasure (s : L1State) (aIdx aPos lower upper : Int) :
    (getItemsFrom s aIdx aPos lower upper).needsRemeasure
      = s.needsRemeasure := rfl

theorem getItemsFrom_physicalItems (s : L1State) (aIdx aPos lower upper : Int) :
    (getItemsFrom s aIdx aPos lower upper).physicalItems
      = (if (getItemsCore s aIdx aPos lower upper).stable = true
          then (getItemsCore s aIdx aPos lower upper).items
          else s.physicalItems) := by
  unfold L1State.getItemsFrom
  dsimp only

/-- A `_getItems` pass run from a settled state at an anchor inside the
committed window rebuilds exactly that window: same range, same extents,
stable, no scroll adjustment, and every committed entry reproduced. -/
theorem getItemsCore_settled (s : L1State) (h : SettledInv s) (a : Int)
    (ha1 : s.first ≤ a) (ha2 : a ≤ s.last)
    (hlo : s.lowerOf ≤ posAt s a + sizeAt s a + s.spacing)
    (hup : posAt s a ≤ s.upperOf) :
    (getItemsCore s a (posAt s a) s.lowerOf s.upperOf).first = s.first
    ∧ (getItemsCore s a (posAt s a) s.lowerOf s.upperOf).last = s.last
    ∧ (getItemsCore s a (posAt s a) s.lowerOf s.upperOf).pMin = s.physicalMin
    ∧ (getItemsCore s a (posAt s a) s.lowerOf s.upperOf).pMax = s.physicalMax
    ∧ (getItemsCore s a (posAt s a) s.lowerOf s.upperOf).stable = true
    ∧ (getItemsCore s a (posAt s a) s.lowerOf s.upperOf).scrollPos
        = s.scrollPosition
    ∧ (getItemsCore s a (posAt s a) s.lowerOf s.upperOf).scrollErr
        = s.scrollError
    ∧ (getItemsCore s a (posAt s a) s.lowerOf s.upperOf).aPos = posAt s a
    ∧ ∀ j, s.first ≤ j → j ≤ s.last →
        (getItemsCore s a (posAt s a) s.lowerOf s.upperOf).items.get j
          = s.physicalItems.get j := by
  have hInv := h
  obtain ⟨hn, hv, hsp, hd, hoh, hsc0, hsc1, hai, hnew, hst, hrm, hf0, hfl,
    hln, hss, hent, hadj, hpmin, hpmax, hpin0, hfpos, habove, hlu, hcov,
    hpin1, hpin2, hlmax⟩ := hInv
  have hea := h.entry ha1 ha2
  have hasz := anchorSizeOf_committed s h ha1 ha2
  have herr : s.anchorErrOf a (posAt s a) s.lowerOf s.upperOf = 0 := by
    unfold L1State.anchorErrOf
    dsimp only
    rw [hasz]
    rw [if_neg (by omega), if_neg (by omega)]
  have hlad : s.lowerAdj a (posAt s a) s.lowerOf s.upperOf = s.lowerOf := by
    unfold L1State.lowerAdj
    dsimp only
    rw [herr]
    simp
  have huad : s.upperAdj a (posAt s a) s.lowerOf s.upperOf = s.upperOf := by
    unfold L1State.upperAdj
    dsimp only
    rw [herr]
    simp
  have hbeq : backRes s a (posAt s a) s.lowerOf s.upperOf
      = growBack s.physicalItems s.itemDim1 s.spacing s.lowerOf s.estimate
          a.toNat
          { idx := a, pos := posAt s a
            items := PMap.set [] a { pos := posAt s a, size := sizeAt s a }
            stable := true } := by
    unfold L1State.backRes
    rw [hlad, hnew, hasz]
  have hback := rebuild_back s a h ha1 ha2 a.toNat
    { idx := a, pos := posAt s a
      items := PMap.set [] a { pos := posAt s a, size := sizeAt s a }
      stable := true }
    ha1 (le_refl a) rfl rfl
    (by
      intro j hj1 hj2
      dsimp only
      by_cases hja : j = a
      · subst hja
        rw [if_pos ⟨le_refl _, le_refl _⟩, PMap.get_set_self, hea.1]
      · rw [PMap.get_set_ne _ _ _ _ hja, if_neg (by omega)]
        rfl)
    (by dsimp only; omega)
  have hb1 : (backRes s a (posAt s a) s.lowerOf s.upperOf).idx = s.first := by
    rw [hbeq]; exact hback.1
  have hb2 : (backRes s a (posAt s a) s.lowerOf s.upperOf).pos
      = posAt s s.first := by
    rw [hbeq]; exact hback.2.1
  have hb3 : (backRes s a (posAt s a) s.lowerOf s.upperOf).stable = true := by
    rw [hbeq]; exact hback.2.2.1
  have hb4 : ∀ j, s.first ≤ j → j ≤ s.last →
      (backRes s a (posAt s a) s.lowerOf s.upperOf).items.get j
        = (if j ≤ a then s.physicalItems.get j else none) := by
    intro j hj1 hj2
    rw [hbeq]
    exact hback.2.2.2 j hj1 hj2
  have hfwd := rebuild_fwd s a h ha1 ha2 (s.totalItems - a).toNat
    { idx := a, pos := posAt s a
      items := (backRes s a (posAt s a) s.lowerOf s.upperOf).items
      stable := (backRes s a (posAt s a) s.lowerOf s.upperOf).stable }
    (le_refl a) (by dsimp only; omega)
    (by dsimp only; rw [if_pos ha2])
    (by dsimp only; exact hb3)
    (by
      intro j hj1 hj2
      dsimp only
      rw [hb4 j hj1 hj2]
      by_cases hja : j ≤ a
      · rw [if_pos hja, if_pos (Or.inl hja)]
      · rw [if_neg hja, if_neg (by omega)])
    (by dsimp only; omega)
  have hfeq : fwdRes s a (posAt s a) s.lowerOf s.upperOf
      = growFwd s.physicalItems s.itemDim1 s.spacing s.upperOf s.totalItems
          s.estimate (s.totalItems - a).toNat
          { idx := a, pos := posAt s a
            items := (backRes s a (posAt s a) s.lowerOf s.upperOf).items
            stable := (backRes s a (posAt s a) s.lowerOf s.upperOf).stable } := by
    unfold L1State.fwdRes
    rw [huad]
  have hf1 : (fwdRes s a (posAt s a) s.lowerOf s.upperOf).idx = s.last + 1 := by
    rw [hfeq]; exact hfwd.1
  have hf2 : (fwdRes s a (posAt s a) s.lowerOf s.upperOf).pos
      = s.physicalMax := by
    rw [hfeq]; exact hfwd.2.1
  have hf3 : (fwdRes s a (posAt s a) s.lowerOf s.upperOf).stable = true := by
    rw [hfeq]; exact hfwd.2.2.1
  have hf4 : ∀ j, s.first ≤ j → j ≤ s.last →
      (fwdRes s a (posAt s a) s.lowerOf s.upperOf).items.get j
        = s.physicalItems.get j := by
    intro j hj1 hj2
    rw [hfeq]
    exact hfwd.2.2.2 j hj1 hj2
  have hR1 : (getItemsRaw s a (posAt s a) s.lowerOf s.upperOf).first
      = s.first := by
    rw [getItemsRaw_first]; exact hb1
  have hR2 : (getItemsRaw s a (posAt s a) s.lowerOf s.upperOf).last
      = s.last := by
    rw [getItemsRaw_last, hf1]; omega
  have hR3 : (getItemsRaw s a (posAt s a) s.lowerOf s.upperOf).pMin
      = s.physicalMin := by
    rw [getItemsRaw_pMin, hb2, hpmin]
  have hR4 : (getItemsRaw s a (posAt s a) s.lowerOf s.upperOf).pMax
      = s.physicalMax := by
    rw [getItemsRaw_pMax, hf2]
  have hR5 : (getItemsRaw s a (posAt s a) s.lowerOf s.upperOf).stable
      = true := by
    rw [getItemsRaw_stable]; exact hf3
  have hR6 : (getItemsRaw s a (posAt s a) s.lowerOf s.upperOf).scrollPos
      = s.scrollPosition := by
    unfold L1State.getItemsRaw
    dsimp only
    rw [herr]
    simp
  have hR7 : (getItemsRaw s a (posAt s a) s.lowerOf s.upperOf).scrollErr
      = s.scrollError := by
    unfold L1State.getItemsRaw
    dsimp only
    rw [herr]
    simp
  have hR8 : (getItemsRaw s a (posAt s a) s.lowerOf s.upperOf).aPos
      = posAt s a := rfl
  have hcalc : calcError s.first s.last s.physicalMin s.physicalMax s.scrollSize
      s.totalItems s.delta = 0 := by
    unfold calcError
    by_cases hz : s.first = 0
    · rw [if_pos hz, hpmin, hz]
      exact hpin0 hz
    · have hpm := (hfpos (by omega)).2
      rw [if_neg hz, if_neg (by omega)]
      by_cases hl : s.last = s.totalItems - 1
      · rw [if_pos hl]
        have := hpin1 ⟨by omega, hl⟩
        omega
      · have := hpin2 ⟨by omega, by omega⟩
        rw [if_neg hl, if_neg (by omega)]
  have hcore : getItemsCore s a (posAt s a) s.lowerOf s.upperOf
      = getItemsRaw s a (posAt s a) s.lowerOf s.upperOf := by
    unfold L1State.getItemsCore
    dsimp only
    rw [hR1, hR2, hR3, hR4, hcalc]
    simp
  refine ⟨by rw [hcore]; exact hR1, by rw [hcore]; exact hR2,
    by rw [hcore]; exact hR3, by rw [hcore]; exact hR4,
    by rw [hcore]; exact hR5, by rw [hcore]; exact hR6,
    by rw [hcore]; exact hR7, by rw [hcore]; exact hR8, ?_⟩
  intro j hj1 hj2
  rw [hcore, getItemsRaw_items]
  exact hf4 j hj1 hj2

/-- From a settled state the whole update/rebuild/clamp sequence of a reflow
pass returns exactly the `_getItems` pass at the settled anchor. -/
theorem settled_pass (s : L1State) (h : SettledInv s) :
    s.updateScrollSize.getActiveItems.scrollIfNeeded
      = getItemsFrom s (s.getAnchor s.lowerOf s.upperOf)
          (posAt s (s.getAnchor s.lowerOf s.upperOf)) s.lowerOf s.upperOf := by
  have hInv := h
  obtain ⟨hn, hv, hsp, hd, hoh, hsc0, hsc1, hai, hnew, hst, hrm, hf0, hfl,
    hln, hss, hent, hadj, hpmin, hpmax, hpin0, hfpos, habove, hlu, hcov,
    hpin1, hpin2, hlmax⟩ := hInv
  obtain ⟨⟨hA1, hA2⟩, hAlo, hAup⟩ := getAnchor_settled s h
  have hU : s.updateScrollSize = s := updateScrollSize_settled s hss.symm
  have hC := getItemsCore_settled s h _ hA1 hA2 hAlo hAup
  have hGA : s.getActiveItems
      = getItemsFrom s (s.getAnchor s.lowerOf s.upperOf)
          (posAt s (s.getAnchor s.lowerOf s.upperOf)) s.lowerOf s.upperOf := by
    unfold L1State.getActiveItems
    rw [if_neg (by omega)]
    unfold L1State.getItems
    dsimp only
    have hao : s.anchorOf s.lowerOf s.upperOf
        = (s.getAnchor s.lowerOf s.upperOf,
            s.getPosition (s.getAnchor s.lowerOf s.upperOf)) := by
      unfold L1State.anchorOf
      rw [hai]
    rw [hao]
    dsimp only
    rw [getPosition_committed s (h.entry hA1 hA2).1]
  have hTsp : (getItemsFrom s (s.getAnchor s.lowerOf s.upperOf)
      (posAt s (s.getAnchor s.lowerOf s.upperOf)) s.lowerOf
        s.upperOf).scrollPosition = s.scrollPosition := by
    rw [getItemsFrom_scrollPosition]
    exact hC.2.2.2.2.2.1
  rw [hU, hGA]
  refine scrollIfNeeded_id _ ?_ ?_
  · rw [hTsp]
    exact hsc0
  · rw [hTsp]
    show s.scrollPosition ≤ s.scrollSize - s.viewDim1
    exact hsc1

/-- The pass of `settled_pass` reproduces the committed per-item positions. -/
theorem childPositions_settled (s : L1State) (h : SettledInv s) :
    L1State.childPositions (getItemsFrom s (s.getAnchor s.lowerOf s.upperOf)
        (posAt s (s.getAnchor s.lowerOf s.upperOf)) s.lowerOf s.upperOf)
      = s.childPositions := by
  obtain ⟨⟨hA1, hA2⟩, hAlo, hAup⟩ := getAnchor_settled s h
  have hC := getItemsCore_settled s h _ hA1 hA2 hAlo hAup
  have hT1 : (getItemsFrom s (s.getAnchor s.lowerOf s.upperOf)
      (posAt s (s.getAnchor s.lowerOf s.upperOf)) s.lowerOf s.upperOf).first
      = s.first := by
    rw [getItemsFrom_first]
    exact hC.1
  have hT2 : (getItemsFrom s (s.getAnchor s.lowerOf s.upperOf)
      (posAt s (s.getAnchor s.lowerOf s.upperOf)) s.lowerOf s.upperOf).last
      = s.last := by
    rw [getItemsFrom_last]
    exact hC.2.1
  have hTphys : (getItemsFrom s (s.getAnchor s.lowerOf s.upperOf)
      (posAt s (s.getAnchor s.lowerOf s.upperOf)) s.lowerOf
        s.upperOf).physicalItems
      = (getItemsCore s (s.getAnchor s.lowerOf s.upperOf)
          (posAt s (s.getAnchor s.lowerOf s.upperOf)) s.lowerOf
            s.upperOf).items := by
    rw [getItemsFrom_physicalItems, hC.2.2.2.2.1]
    simp
  unfold L1State.childPositions
  rw [hT1, hT2]
  refine List.map_congr_left ?_
  intro k hk
  have hk' : ∃ a : Nat, (a : Int) < s.last - s.first + 1 ∧ k = (a : Int) := by
    simpa using hk
  obtain ⟨aa, haa, hak⟩ := hk'
  have hkf : s.first ≤ s.first + k := by omega
  have hkb : s.first + k ≤ s.last := by omega
  have hget : (getItemsFrom s (s.getAnchor s.lowerOf s.upperOf)
      (posAt s (s.getAnchor s.lowerOf s.upperOf)) s.lowerOf
        s.upperOf).physicalItems.get (s.first + k)
      = s.physicalItems.get (s.first + k) := by
    rw [hTphys]
    exact hC.2.2.2.2.2.2.2.2 _ hkf hkb
  have hpos : (getItemsFrom s (s.getAnchor s.lowerOf s.upperOf)
      (posAt s (s.getAnchor s.lowerOf s.upperOf)) s.lowerOf
        s.upperOf).getPosition (s.first + k)
      = s.getPosition (s.first + k) := by
    unfold L1State.getPosition
    rw [hget, (h.entry hkf hkb).1]
  rw [hpos]

/-- C5 amended: a reflow pass run from a settled, self-consistent state —
committed window contiguous with non-negative sizes covering the target
interval with the boundary pinning `_calculateError` enforces, content size
already accounting for the window's physical extent, scroll position in
bounds, and the per-pass build state cleared — with no new measurements, no
scroll-position change and no viewport resize emits the same range (still
stable, no remeasure request), no content-size change, and exactly the
committed per-item positions: the settled state is a fixed point of
`_reflow`'s emissions.  (Without the content-size proviso the original claim
fails: see the C5 counterexample.) -/
theorem c5_settled_fixed_point (s : L1State) (h : SettledInv s) :
    (reflow s).2.rangeFirst = s.first
    ∧ (reflow s).2.rangeLast = s.last
    ∧ (reflow s).2.rangeStable = true
    ∧ (reflow s).2.rangeRemeasure = false
    ∧ (reflow s).2.scrollSizeEmitted = none
    ∧ (reflow s).2.positions = some s.childPositions := by
  obtain ⟨⟨hA1, hA2⟩, hAlo, hAup⟩ := getAnchor_settled s h
  have hC := getItemsCore_settled s h _ hA1 hA2 hAlo hAup
  have hP := settled_pass s h
  have hcp := childPositions_settled s h
  have hInv := h
  obtain ⟨hn, hv, hsp, hd, hoh, hsc0, hsc1, hai, hnew, hst, hrm, hf0, hfl,
    hln, hss, hent, hadj, hpmin, hpmax, hpin0, hfpos, habove, hlu, hcov,
    hpin1, hpin2, hlmax⟩ := hInv
  have hT1 : (getItemsFrom s (s.getAnchor s.lowerOf s.upperOf)
      (posAt s (s.getAnchor s.lowerOf s.upperOf)) s.lowerOf s.upperOf).first
      = s.first := by
    rw [getItemsFrom_first]
    exact hC.1
  have hT2 : (getItemsFrom s (s.getAnchor s.lowerOf s.upperOf)
      (posAt s (s.getAnchor s.lowerOf s.upperOf)) s.lowerOf s.upperOf).last
      = s.last := by
    rw [getItemsFrom_last]
    exact hC.2.1
  have hTst : (getItemsFrom s (s.getAnchor s.lowerOf s.upperOf)
      (posAt s (s.getAnchor s.lowerOf s.upperOf)) s.lowerOf s.upperOf).stable
      = true := by
    rw [getItemsFrom_stable]
    exact hC.2.2.2.2.1
  have hTrm : (getItemsFrom s (s.getAnchor s.lowerOf s.upperOf)
      (posAt s (s.getAnchor s.lowerOf s.upperOf)) s.lowerOf
        s.upperOf).needsRemeasure = false := by
    rw [getItemsFrom_needsRemeasure]
    exact hrm
  unfold L1State.reflow
  dsimp only
  rw [hP]
  have hs4 : ({ (getItemsFrom s (s.getAnchor s.lowerOf s.upperOf)
      (posAt s (s.getAnchor s.lowerOf s.upperOf)) s.lowerOf s.upperOf) with
        needsRemeasure := false } : L1State)
      = getItemsFrom s (s.getAnchor s.lowerOf s.upperOf)
          (posAt s (s.getAnchor s.lowerOf s.upperOf)) s.lowerOf s.upperOf := by
    rw [← hTrm]
  rw [hs4, hT1, hT2]
  rw [if_neg (show ¬(s.first = -1 ∧ s.last = -1) by omega)]
  rw [if_neg (show ¬(s.first ≠ s.first ∨ s.last ≠ s.last ∨ false = true)
    by simp)]
  dsimp only
  refine ⟨rfl, rfl, hTst, hTrm, ?_, ?_⟩
  · rw [getItemsFrom_scrollSize]
    simp
  · rw [hcp]

/-- C5 witness: the settled second pass of the spec's scenario 1 satisfies
the settled invariant, and the next pass re-emits exactly the same range and
positions. -/
theorem c5_settled_fixed_point_witness :
    SettledInv (reflowN 2 cfgA)
    ∧ ((reflow (reflowN 2 cfgA)).2.rangeFirst = (reflowN 2 cfgA).first
      ∧ (reflow (reflowN 2 cfgA)).2.rangeLast = (reflowN 2 cfgA).last
      ∧ (reflow (reflowN 2 cfgA)).2.rangeStable = true
      ∧ (reflow (reflowN 2 cfgA)).2.rangeRemeasure = false
      ∧ (reflow (reflowN 2 cfgA)).2.scrollSizeEmitted = none
      ∧ (reflow (reflowN 2 cfgA)).2.positions
          = some (reflowN 2 cfgA).childPositions) :=
  ⟨by decide, c5_settled_fixed_point (reflowN 2 cfgA) (by decide)⟩

end Layout1d
